import Mathlib

/-!
# Verification of the lottery ingestion and analysis engine

Shallow embedding of the draw ingestion / statistics engine found in
`src/components/LotteryAnalysis.tsx` (service portion) and
`src/services/analysisService.ts`:

* `readFileData` (CSV branch; the spreadsheet branch delegates to an external
  library and is not modeled — grids are taken as inputs where it matters),
* `parseDate`,
* header detection and `parseRawDataToDraws`,
* `analyzeLotteryData` (multi-file consolidation; file I/O is abstracted away:
  a file is represented by the grid its reader produces),
* `processDraws` (the claim-relevant accumulators: frequency table and
  interval/delay statistics; the pair / parity / repeated-draw accumulators of
  the same loop are independent of these and are not needed by any claim),
* `regenerateSuggestions` with `pickRandomNumbers`.

JavaScript numbers are modeled as exact rationals (every IEEE double is a
rational). JavaScript `Map`s are modeled as association lists with
update-in-place semantics (`mapSet`/`mapGet`), matching insertion-order
iteration of `Map`. JavaScript's stable `Array.prototype.sort` with a
consistent comparator is modeled by insertion sort (stable sorting with a
consistent comparator has a unique result, so this is faithful). The ambient
random shuffle `[...xs].sort(() => 0.5 - Math.random())` always produces some
permutation of its input; it is modeled by an explicit `shuffle` parameter,
with theorems assuming only that `shuffle` permutes its argument.
-/

namespace Lottery

/-- A cell of a raw grid: JS `string | number`. -/
inductive Cell where
  | str (s : String)
  | num (q : ℚ)
deriving DecidableEq

/-- Decidable equality for `Except`, used to evaluate pipeline results. -/
def exceptDecEqFn {ε α : Type} [DecidableEq ε] [DecidableEq α] :
    (x y : Except ε α) → Decidable (x = y)
  | .error a, .error b =>
      if h : a = b then .isTrue (by rw [h]) else .isFalse (by intro hh; cases hh; exact h rfl)
  | .error _, .ok _ => .isFalse (by intro h; cases h)
  | .ok _, .error _ => .isFalse (by intro h; cases h)
  | .ok a, .ok b =>
      if h : a = b then .isTrue (by rw [h]) else .isFalse (by intro hh; cases hh; exact h rfl)

instance {ε α : Type} [DecidableEq ε] [DecidableEq α] : DecidableEq (Except ε α) :=
  exceptDecEqFn

/-! ## JS string primitives (`trim`, `replace(/x/g,'')`, `split`, `toLowerCase`, `includes`) -/

/-- JS `String.prototype.trim`: strip leading and trailing whitespace. -/
def trimChars (cs : List Char) : List Char :=
  ((cs.dropWhile Char.isWhitespace).reverse.dropWhile Char.isWhitespace).reverse

/-- JS `s.trim()`. -/
def jsTrim (s : String) : String := String.mk (trimChars s.toList)

/-- JS `s.replace(/c/g, '')` for a single character `c`: remove every occurrence. -/
def removeChar (c : Char) (s : String) : String :=
  String.mk (s.toList.filter (fun a => ¬ a = c))

/-- JS `s.split(sep)` for a one-character separator. -/
def splitChar (c : Char) (s : String) : List String :=
  (s.toList.splitOn c).map String.mk

/-- ASCII lower-casing of one character (headers in scope are ASCII). -/
def lowerChar (c : Char) : Char :=
  if 'A' ≤ c ∧ c ≤ 'Z' then Char.ofNat (c.toNat + 32) else c

/-- JS `s.toLowerCase()` (ASCII fragment). -/
def jsToLower (s : String) : String := String.mk (s.toList.map lowerChar)

/-- JS `s.includes(c)` for a single character. -/
def strContainsChar (s : String) (c : Char) : Bool := s.toList.any (fun a => a = c)

/-! ## JS number conversions -/

/-- Numeric value of a digit string (`parseInt` on an all-digit match). -/
def digitsVal (cs : List Char) : ℕ := cs.foldl (fun a c => a * 10 + (c.toNat - 48)) 0

/-- JS `Number(string)`, restricted to plain decimal literals (optionally signed,
with an optional fractional part). The exotic accepted forms (`"0x.."`,
exponents, `"Infinity"`) do not occur in lottery exports and map to `none`
(NaN) here; `Number('') = 0` and whitespace trimming are modeled. `none`
stands for NaN. -/
def jsToNumber (s : String) : Option ℚ :=
  match trimChars s.toList with
  | [] => some 0
  | cs0 =>
    let sc : ℤ × List Char :=
      match cs0 with
      | '-' :: t => (-1, t)
      | '+' :: t => (1, t)
      | t => (1, t)
    let ip := sc.2.takeWhile Char.isDigit
    let rest := sc.2.dropWhile Char.isDigit
    match rest with
    | [] => if ip.isEmpty then none else some (mkRat (sc.1 * digitsVal ip) 1)
    | '.' :: fr =>
        if fr.all Char.isDigit && !(ip.isEmpty && fr.isEmpty) then
          some (mkRat (sc.1 * ((digitsVal ip : ℤ) * 10 ^ fr.length + digitsVal fr)) (10 ^ fr.length))
        else none
    | _ => none

/-- Decimal digits of the fractional part `r/den` (fuel-bounded; every number
reachable from the modeled readers is a finite decimal, so the fuel is ample). -/
def fracDigits : ℕ → ℕ → ℕ → List Char
  | 0, _, _ => []
  | _ + 1, 0, _ => []
  | fuel + 1, r, den => Char.ofNat (48 + (r * 10) / den) :: fracDigits fuel ((r * 10) % den) den

/-- JS `String(cell)`: identity on strings, decimal rendering of numbers. -/
def jsCellString : Cell → String
  | .str s => s
  | .num q =>
    (if q < 0 then "-" else "") ++
      (if q.den = 1 then toString q.num.natAbs
       else toString (q.num.natAbs / q.den) ++ "." ++
         String.mk (fracDigits 60 (q.num.natAbs % q.den) q.den))

/-- JS `Number(cell)` on a defined cell (numbers pass through, strings are
converted). `none` stands for NaN. -/
def cellNumber : Cell → Option ℚ
  | .num q => some q
  | .str s => jsToNumber s

/-! ## JS `Set` dedup and `Map` as an association list -/

/-- JS `Array.from(new Set(l))`: keep the first occurrence of each element,
preserving order (structural accumulator version). -/
def jsDedupAux {α : Type} [DecidableEq α] : List α → List α → List α
  | _, [] => []
  | seen, a :: l => if a ∈ seen then jsDedupAux seen l else a :: jsDedupAux (a :: seen) l

/-- JS `Array.from(new Set(l))`. -/
def jsDedup {α : Type} [DecidableEq α] (l : List α) : List α := jsDedupAux [] l

/-- JS `Map.prototype.get`. -/
def mapGet {κ β : Type} [DecidableEq κ] (m : List (κ × β)) (k : κ) : Option β :=
  (m.find? (fun p => p.1 = k)).map (fun p => p.2)

/-- JS `Map.prototype.set`: update in place if the key exists (preserving its
position, as `Map` iteration order does), otherwise append. -/
def mapSet {κ β : Type} [DecidableEq κ] (m : List (κ × β)) (k : κ) (v : β) : List (κ × β) :=
  if m.any (fun p => p.1 = k) then m.map (fun p => if p.1 = k then (k, v) else p)
  else m ++ [(k, v)]

/-! ## Data model -/

/-- The `LotteryConfig` (the numeric fields used by the engine). -/
structure LotteryConfig where
  totalNumbers : ℕ
  drawSize : ℕ
  betSize : ℕ
  hotCount : ℕ
  coldCount : ℕ
deriving DecidableEq

/-- A calendar date as JS `new Date(year, month, day)` stores it
(`month` is 0-based, as `getMonth()` reports it). -/
structure JDate where
  year : ℕ
  month : ℕ
  day : ℕ
deriving DecidableEq

/-- A validated draw (`DrawData` of `types.ts`). -/
structure DrawData where
  contest : Cell
  numbers : List ℚ
  date : JDate
deriving DecidableEq

/-- The object built for one data row before the validating `filter`
(`contest`/`date` may be `undefined`/`null` at this stage). -/
structure RawDraw where
  contest : Option Cell
  numbers : List ℚ
  date : Option JDate
deriving DecidableEq

/-- One entry of the frequency table. -/
structure Frequency where
  number : ℚ
  count : ℕ
deriving DecidableEq

/-- The three suggestion lists. -/
structure GameSuggestions where
  hot : List ℚ
  cold : List ℚ
  mixed : List ℚ
deriving DecidableEq

/-- Per-number interval statistics (`NumberIntervalStats` of `types.ts`). -/
structure NumberIntervalStats where
  number : ℕ
  currentDelay : ℕ
  avgInterval : ℚ
  maxDelay : ℕ
deriving DecidableEq

/-- The claim-relevant part of `processDraws`' result. -/
structure ProcessResult where
  totalDraws : ℕ
  frequencies : List Frequency
  intervalStats : List NumberIntervalStats
deriving DecidableEq

/-! ## `parseDate`

The source matches `/(\d{1,2})[/\-.](\d{1,2})[/\-.](\d{2,4})/` (first match,
leftmost position, greedy quantifiers with backtracking), applies the
two-digit-year heuristic, builds `new Date(year, month-1, day)` and accepts
only if `getFullYear`/`getMonth`/`getDate` round-trip. Because the adjusted
year is always ≥ 100 here, JS `Date` rollover makes the round-trip succeed
exactly when `1 ≤ month ≤ 12` and `1 ≤ day ≤ daysInMonth` — which is how the
check is expressed below. -/

/-- Date separator class `[/\-.]`. -/
def isDateSep (c : Char) : Bool := c = '/' || c = '-' || c = '.'

/-- Consume exactly `n` digits, returning them and the rest. -/
def takeExactDigits : ℕ → List Char → Option (List Char × List Char)
  | 0, cs => some ([], cs)
  | _ + 1, [] => none
  | n + 1, c :: cs =>
    if c.isDigit then (takeExactDigits n cs).map (fun p => (c :: p.1, p.2)) else none

/-- Consume one separator. -/
def matchSep : List Char → Option (List Char)
  | [] => none
  | c :: cs => if isDateSep c then some cs else none

/-- Year part `\d{2,4}` at the end of the pattern: greedy, so widths 4, 3, 2 in order. -/
def matchYear (cs : List Char) : Option ℕ :=
  match takeExactDigits 4 cs with
  | some (ds, _) => some (digitsVal ds)
  | none =>
    match takeExactDigits 3 cs with
    | some (ds, _) => some (digitsVal ds)
    | none => (takeExactDigits 2 cs).map (fun p => digitsVal p.1)

/-- Month of width `w` followed by a separator and the year. -/
def matchMonthWidth (w : ℕ) (cs : List Char) : Option (ℕ × ℕ) :=
  match takeExactDigits w cs with
  | none => none
  | some (mds, r1) =>
    match matchSep r1 with
    | none => none
    | some r2 => (matchYear r2).map (fun y => (digitsVal mds, y))

/-- Month part `\d{1,2}` with backtracking: width 2 first, then width 1. -/
def matchMonthFrom (cs : List Char) : Option (ℕ × ℕ) :=
  match matchMonthWidth 2 cs with
  | some r => some r
  | none => matchMonthWidth 1 cs

/-- Day of width `w` followed by a separator and the month/year part. -/
def matchDayWidth (w : ℕ) (cs : List Char) : Option (ℕ × ℕ × ℕ) :=
  match takeExactDigits w cs with
  | none => none
  | some (dds, r1) =>
    match matchSep r1 with
    | none => none
    | some r2 => (matchMonthFrom r2).map (fun p => (digitsVal dds, p.1, p.2))

/-- Try to match the whole date pattern at this position (day width 2, then 1). -/
def matchDayFrom (cs : List Char) : Option (ℕ × ℕ × ℕ) :=
  match matchDayWidth 2 cs with
  | some r => some r
  | none => matchDayWidth 1 cs

/-- Leftmost match: scan positions left to right. -/
def findDateFrom : List Char → Option (ℕ × ℕ × ℕ)
  | [] => none
  | c :: cs =>
    match matchDayFrom (c :: cs) with
    | some r => some r
    | none => findDateFrom cs

/-- First `(day, month, year)` match of the date regex in `s`, if any. -/
def findDatePattern (s : String) : Option (ℕ × ℕ × ℕ) := findDateFrom s.toList

/-- Gregorian leap year, as JS `Date` implements it. -/
def isLeapYear (y : ℕ) : Bool := y % 4 = 0 && (decide (y % 100 ≠ 0) || y % 400 = 0)

/-- Days in 1-based month `m` of year `y` (0 for `m` outside `1..12`). -/
def daysInMonth (y m : ℕ) : ℕ :=
  if m = 1 then 31 else if m = 2 then (if isLeapYear y then 29 else 28)
  else if m = 3 then 31 else if m = 4 then 30 else if m = 5 then 31
  else if m = 6 then 30 else if m = 7 then 31 else if m = 8 then 31
  else if m = 9 then 30 else if m = 10 then 31 else if m = 11 then 30
  else if m = 12 then 31 else 0

/-- The two-digit-year heuristic: `year > 50 → 1900+year`, else `2000+year`. -/
def fixYear (y : ℕ) : ℕ := if y < 100 then (if 50 < y then 1900 + y else 2000 + y) else y

/-- The `new Date(year, month-1, day)` round-trip check, for year ≥ 100:
succeeds exactly for real calendar dates. -/
def dateComponentsValid (y m d : ℕ) : Prop :=
  1 ≤ m ∧ m ≤ 12 ∧ 1 ≤ d ∧ d ≤ daysInMonth y m

instance (y m d : ℕ) : Decidable (dateComponentsValid y m d) := by
  unfold dateComponentsValid; infer_instance

/-- The `parseDate` of the source: falsy guard (`''`/`0`), regex extraction,
two-digit-year heuristic, calendar round-trip validation. Returns `none`
("no date") instead of raising. -/
def parseDate (c : Cell) : Option JDate :=
  if c = Cell.str "" ∨ c = Cell.num 0 then none
  else
    match findDatePattern (jsCellString c) with
    | none => none
    | some (d, m, y) =>
      let yy := fixYear y
      if dateComponentsValid yy m d then some ⟨yy, m - 1, d⟩ else none

/-! ## Header detection (`parseRawDataToDraws`, strategies 1 and 2) -/

/-- Is `pat` a prefix of `cs`? -/
def startsWithChars : List Char → List Char → Bool
  | [], _ => true
  | _ :: _, [] => false
  | p :: ps, c :: cs => p = c && startsWithChars ps cs

/-- Strip `pat` from the front of `cs`, returning the rest on success. -/
def stripLeadChars : List Char → List Char → Option (List Char)
  | [], cs => some cs
  | _ :: _, [] => none
  | p :: ps, c :: cs => if p = c then stripLeadChars ps cs else none

/-- Does `cs` contain `pat` as a contiguous substring? -/
def hasSubChars (pat : List Char) : List Char → Bool
  | [] => pat.isEmpty
  | c :: rest => startsWithChars pat (c :: rest) || hasSubChars pat rest

/-- Test `/concurso/i.test(s)` on an already lower-cased label. -/
def hasConcursoMark (s : String) : Bool := hasSubChars "concurso".toList s.toList

/-- Test `/data/i.test(s)` on an already lower-cased label. -/
def hasDataMark (s : String) : Bool := hasSubChars "data".toList s.toList

/-- The `\s*_?\d+` tail of the ball-column regex. -/
def drawColTailMatch (cs : List Char) : Bool :=
  let cs1 := cs.dropWhile Char.isWhitespace
  let cs2 := match cs1 with
    | '_' :: rest => rest
    | rest => rest
  match cs2 with
  | c :: _ => c.isDigit
  | [] => false

/-- Pattern `(bola|dezena|d)\s*_?\d+` anchored at this position. -/
def drawColHere (cs : List Char) : Bool :=
  (match stripLeadChars "bola".toList cs with
   | some r => drawColTailMatch r
   | none => false) ||
  (match stripLeadChars "dezena".toList cs with
   | some r => drawColTailMatch r
   | none => false) ||
  (match stripLeadChars "d".toList cs with
   | some r => drawColTailMatch r
   | none => false)

/-- Test `/(bola|dezena|d)\s*_?\d+/i.test(s)`: search at every position. -/
def drawColScan : List Char → Bool
  | [] => false
  | c :: rest => drawColHere (c :: rest) || drawColScan rest

/-- Ball-column label test on an already lower-cased label. -/
def drawColMark (s : String) : Bool := drawColScan s.toList

/-- JS `String(cell).toLowerCase()`. -/
def cellLower (c : Cell) : String := jsToLower (jsCellString c)

/-- Check `1 ≤ n && n ≤ totalNumbers` (the `!isNaN` part is the `Option` layer). -/
def inRangeQ (cfg : LotteryConfig) (q : ℚ) : Bool :=
  decide (1 ≤ q ∧ q ≤ (cfg.totalNumbers : ℚ))

/-- Strategy 1: a row (among the first 10) whose labels locate a contest
column, a date column and at least `drawSize` ball columns; the first
`drawSize` ball columns are kept. Returns
`(headerRowIndex, contestIndex, dateIndex, drawIndices)`. -/
def findHeader1 (rawData : List (List Cell)) (cfg : LotteryConfig) :
    Option (ℕ × ℕ × ℕ × List ℕ) :=
  (rawData.take 10).enum.findSome? fun p =>
    let low := p.2.map cellLower
    match low.findIdx? hasConcursoMark, low.findIdx? hasDataMark with
    | some ci, some di =>
      let dIdxs := (low.enum.filter (fun q => drawColMark q.2)).map (fun q => q.1)
      if cfg.drawSize ≤ dIdxs.length then some (p.1, ci, di, dIdxs.take cfg.drawSize)
      else none
    | _, _ => none

/-- Strategy 2: a row (among the first 10) with contest and date labels whose
next row contains at least `drawSize` in-range numbers; ball columns stay
unresolved (whole-row scanning). -/
def findHeader2 (rawData : List (List Cell)) (cfg : LotteryConfig) :
    Option (ℕ × ℕ × ℕ) :=
  (rawData.take 10).enum.findSome? fun p =>
    let low := p.2.map cellLower
    match low.findIdx? hasConcursoMark, low.findIdx? hasDataMark with
    | some ci, some di =>
      match rawData.get? (p.1 + 1) with
      | some nextRow =>
        if cfg.drawSize ≤ ((nextRow.filterMap cellNumber).filter (inRangeQ cfg)).length then
          some (p.1, ci, di)
        else none
      | none => none
    | _, _ => none

/-! ## Row extraction (`parseRawDataToDraws`) -/

/-- JS `Number(row[i])`: `none` (NaN) when the index is out of bounds (`undefined`)
or the cell does not convert. -/
def numAt (row : List Cell) (i : ℕ) : Option ℚ := (row.get? i).bind cellNumber

/-- The draw numbers of one row: selected ball columns (strategy 1) or a scan
of every cell (strategy 2); filter to in-range, dedup (`new Set`), sort
ascending. -/
def extractNumbers (cfg : LotteryConfig) (dIdx : Option (List ℕ)) (row : List Cell) : List ℚ :=
  match dIdx with
  | some idxs =>
      ((jsDedup ((idxs.filterMap (numAt row)).filter (inRangeQ cfg))).insertionSort (· ≤ ·))
  | none =>
      ((jsDedup ((row.filterMap cellNumber).filter (inRangeQ cfg))).insertionSort (· ≤ ·))

/-- The object built by the row `map`: contest cell, parsed date, numbers. -/
def rowToRaw (cfg : LotteryConfig) (ci di : ℕ) (dIdx : Option (List ℕ)) (row : List Cell) :
    RawDraw :=
  { contest := row.get? ci
    numbers := extractNumbers cfg dIdx row
    date := (row.get? di).bind parseDate }

/-- The validating `filter` fused with the `map`:
`d.draw.length === drawSize && d.contest !== '' && d.contest !== undefined &&
d.date instanceof Date`. -/
def rawToDraw? (cfg : LotteryConfig) (r : RawDraw) : Option DrawData :=
  match r.contest, r.date with
  | some c, some dt =>
      if r.numbers.length = cfg.drawSize ∧ ¬ c = Cell.str "" then
        some ⟨c, r.numbers, dt⟩
      else none
  | _, _ => none

/-- The header-not-found error message of the source. -/
def headerErrMsg : String :=
  "Não foi possível encontrar o cabeçalho. Verifique se o arquivo contém as colunas Concurso, Data e os números dos sorteios."

/-- The `parseRawDataToDraws` of the source: empty grid short-circuit, strategy 1, strategy 2,
otherwise the header error; then per-row extraction and validation below the
header row. -/
def parseRawDataToDraws (rawData : List (List Cell)) (cfg : LotteryConfig) :
    Except String (List DrawData) :=
  if rawData.isEmpty then .ok []
  else
    match findHeader1 rawData cfg with
    | some (hi, ci, di, idxs) =>
        .ok (((rawData.drop (hi + 1)).map (rowToRaw cfg ci di (some idxs))).filterMap
          (rawToDraw? cfg))
    | none =>
      match findHeader2 rawData cfg with
      | some (hi, ci, di) =>
          .ok (((rawData.drop (hi + 1)).map (rowToRaw cfg ci di none)).filterMap
            (rawToDraw? cfg))
      | none => .error headerErrMsg

/-! ## Multi-file consolidation (`analyzeLotteryData`) -/

/-- Feed one file's draws into the dedup map: `allDrawsMap.set(draw.contest, draw)`. -/
def consolidate (m : List (Cell × DrawData)) (ds : List DrawData) : List (Cell × DrawData) :=
  ds.foldl (fun m d => mapSet m d.contest d) m

/-- The per-file loop of `analyzeLotteryData`: parse each file, merge into the
map; a file-level error is wrapped and re-thrown, aborting the batch. -/
def analyzeGo (cfg : LotteryConfig) :
    List (List (List Cell)) → List (Cell × DrawData) → Except String (List (Cell × DrawData))
  | [], acc => .ok acc
  | g :: gs, acc =>
    match parseRawDataToDraws g cfg with
    | .ok ds => analyzeGo cfg gs (consolidate acc ds)
    | .error e => .error ("Erro ao processar o arquivo: " ++ e)

/-- The no-valid-draws error message of the source. -/
def noValidDrawsMsg : String :=
  "Nenhum sorteio válido encontrado nos arquivos fornecidos."

/-- Sort key of `new Date(y,m,d).getTime()`: lexicographic in (year, month, day),
order-isomorphic to the timestamp for the valid dates produced by `parseDate`. -/
def dateKey (d : JDate) : ℕ := d.year * 10000 + d.month * 100 + d.day

/-- Date-descending comparison used by the final sort (`b.date - a.date`). -/
def dateGe (a b : DrawData) : Prop := dateKey b.date ≤ dateKey a.date

instance : DecidableRel dateGe := fun a b => by unfold dateGe; infer_instance

/-- The `analyzeLotteryData` of the source, with a file represented by the grid its reader
produced and the result being the consolidated, newest-first draw history
(the statistics bundle is `processDraws` of that history). -/
def analyzeLotteryData (files : List (List (List Cell))) (cfg : LotteryConfig) :
    Except String (List DrawData) :=
  match analyzeGo cfg files [] with
  | .error e => .error e
  | .ok m =>
    if m.isEmpty then .error noValidDrawsMsg
    else .ok ((m.map (fun p => p.2)).insertionSort dateGe)

/-! ## `processDraws` (frequency table and interval statistics) -/

/-- One frequency increment: `frequencyMap.set(num, (frequencyMap.get(num) || 0) + 1)`. -/
def freqStep (m : List (ℚ × ℕ)) (n : ℚ) : List (ℚ × ℕ) :=
  mapSet m n ((mapGet m n).getD 0 + 1)

/-- The frequency accumulator over the whole history (stored order). -/
def freqFold (draws : List DrawData) : List (ℚ × ℕ) :=
  draws.foldl (fun m d => d.numbers.foldl freqStep m) []

/-- Running state of the interval pass: `lastSeen` and `intervals` maps. -/
structure IntervalState where
  lastSeen : ℚ → Option ℕ
  intervals : ℚ → List ℕ

/-- One number of one draw in the interval pass: record the gap since the
previous occurrence (if any), then update `lastSeen` — exactly the statement
order of the source. -/
def intervalStep (idx : ℕ) (st : IntervalState) (n : ℚ) : IntervalState :=
  let st1 : IntervalState :=
    match st.lastSeen n with
    | some j =>
        { st with intervals := fun q => if q = n then st.intervals q ++ [idx - j] else st.intervals q }
    | none => st
  { st1 with lastSeen := fun q => if q = n then some idx else st1.lastSeen q }

/-- The interval pass over the history in STORED order (the source iterates
`allDraws.forEach((draw, index) => ...)` directly on the newest-first array). -/
def intervalFold (draws : List DrawData) : IntervalState :=
  draws.enum.foldl (fun st p => p.2.numbers.foldl (intervalStep p.1) st)
    ⟨fun _ => none, fun _ => []⟩

/-- JS `parseFloat(x.toFixed(2))` modeled as exact half-up rounding to 2 decimals
(floating-point artifacts abstracted; nothing is proved about this field). -/
def round2 (q : ℚ) : ℚ := mkRat (Rat.floor (q * 100 + mkRat 1 2)) 100

/-- One step of the zero-fill loop:
`if (!frequencyMap.has(i)) frequencyMap.set(i, 0)`. -/
def zfStep (m : List (ℚ × ℕ)) (i0 : ℕ) : List (ℚ × ℕ) :=
  if (mapGet m ((i0 + 1 : ℕ) : ℚ)).isSome then m else mapSet m ((i0 + 1 : ℕ) : ℚ) 0

/-- Frequency-table presentation order: count descending, ties by number
ascending (`b.count - a.count || a.number - b.number`). -/
def freqOrd (a b : Frequency) : Prop :=
  b.count < a.count ∨ (a.count = b.count ∧ a.number ≤ b.number)

instance : DecidableRel freqOrd := fun a b => by unfold freqOrd; infer_instance

/-- The claim-relevant part of `processDraws`: frequency map (zero-filled over
`1..totalNumbers`, then listed in map order and sorted for presentation) and
per-number interval statistics (`currentDelay` via `lastSeen`). -/
def processDraws (allDraws : List DrawData) (cfg : LotteryConfig) : ProcessResult :=
  let freqMap := freqFold allDraws
  let st := intervalFold allDraws
  let intervalStats := (List.range cfg.totalNumbers).map (fun i0 =>
    let i : ℕ := i0 + 1
    let numIntervals := st.intervals (i : ℚ)
    let avgInterval : ℚ :=
      if 0 < numIntervals.length then
        round2 (mkRat (numIntervals.foldl (fun a b => a + b) 0 : ℕ) numIntervals.length)
      else 0
    let maxDelay := if 0 < numIntervals.length then numIntervals.foldl max 0 else 0
    let currentDelay := match st.lastSeen (i : ℚ) with
      | some j => allDraws.length - 1 - j
      | none => allDraws.length
    NumberIntervalStats.mk i currentDelay avgInterval maxDelay)
  let filled := (List.range cfg.totalNumbers).foldl zfStep freqMap
  let frequencies := (filled.map (fun p => Frequency.mk p.1 p.2)).insertionSort freqOrd
  ProcessResult.mk allDraws.length frequencies intervalStats

/-- Modelled from the spec: the value §4.6 and the glossary assign to
`currentDelay` — "number of draws elapsed since a number's most recent
occurrence", i.e. the newest-first index of the first draw containing the
number, "or `historyLength` if the number never occurred". Stated separately
from the code so the two can be compared. -/
def specCurrentDelay (hist : List DrawData) (n : ℚ) : ℕ :=
  match hist.findIdx? (fun d => n ∈ d.numbers) with
  | some i => i
  | none => hist.length

/-! ## `regenerateSuggestions` -/

/-- JS `[...numbers].sort(() => 0.5 - Math.random()).slice(0, count).sort((a,b) => a-b)`:
shuffle (injected), take, sort ascending. -/
def pickRandomNumbers (shuffle : List ℚ → List ℚ) (numbers : List ℚ) (count : ℕ) : List ℚ :=
  ((shuffle numbers).take count).insertionSort (· ≤ ·)

/-- Count-descending comparison `(a,b) => b.count - a.count` (stable on ties). -/
def countGe (a b : Frequency) : Prop := b.count ≤ a.count

instance : DecidableRel countGe := fun a b => by unfold countGe; infer_instance

/-- Source `sortedByFreq = [...frequencies].sort((a,b) => b.count - a.count)`. -/
def sortedByFreq (frequencies : List Frequency) : List Frequency :=
  frequencies.insertionSort countGe

/-- Source `hotNumbers = sortedByFreq.slice(0, hotCount).map(f => f.number)`. -/
def hotNumbersOf (frequencies : List Frequency) (config : LotteryConfig) : List ℚ :=
  ((sortedByFreq frequencies).take config.hotCount).map (fun f => f.number)

/-- Source `coldNumbers = sortedByFreq.slice(-coldCount).map(f => f.number)`, following
the JS quirk `slice(-0) = slice(0)` (the whole array when `coldCount = 0`,
the last `coldCount` elements otherwise). -/
def coldNumbersOf (frequencies : List Frequency) (config : LotteryConfig) : List ℚ :=
  (if config.coldCount = 0 then sortedByFreq frequencies
   else (sortedByFreq frequencies).drop ((sortedByFreq frequencies).length - config.coldCount)).map
    (fun f => f.number)

/-- Source `uniqueMixed = Array.from(new Set([...mixedHot, ...mixedCold]))` where
`mixedHot`/`mixedCold` draw `ceil(betSize/2)` and the remainder from the hot
and cold pools. -/
def uniqueMixedOf (shuffle : List ℚ → List ℚ) (frequencies : List Frequency)
    (config : LotteryConfig) : List ℚ :=
  jsDedup
    (pickRandomNumbers shuffle (hotNumbersOf frequencies config) ((config.betSize + 1) / 2) ++
     pickRandomNumbers shuffle (coldNumbersOf frequencies config)
       (config.betSize - (config.betSize + 1) / 2))

/-- The top-up / trim step producing `mixedSuggestion`: fill from the numbers
not yet chosen when short, downsample when over, otherwise keep. -/
def mixedOf (shuffle : List ℚ → List ℚ) (frequencies : List Frequency)
    (config : LotteryConfig) : List ℚ :=
  let uniqueMixed := uniqueMixedOf shuffle frequencies config
  if uniqueMixed.length < config.betSize then
    uniqueMixed ++
      pickRandomNumbers shuffle
        ((frequencies.map (fun f => f.number)).filter (fun n => ¬ n ∈ uniqueMixed))
        (config.betSize - uniqueMixed.length)
  else if config.betSize < uniqueMixed.length then
    pickRandomNumbers shuffle uniqueMixed config.betSize
  else uniqueMixed

/-- The `regenerateSuggestions` of the source, with the ambient shuffle as an explicit parameter. -/
def regenerateSuggestions (shuffle : List ℚ → List ℚ) (frequencies : List Frequency)
    (config : LotteryConfig) : GameSuggestions :=
  GameSuggestions.mk
    (pickRandomNumbers shuffle (hotNumbersOf frequencies config) config.betSize)
    (pickRandomNumbers shuffle (coldNumbersOf frequencies config) config.betSize)
    ((mixedOf shuffle frequencies config).insertionSort (· ≤ ·))

/-! ## `readFileData` (CSV branch) -/

/-- One CSV cell: trim, strip quotes, keep date-like strings
(containing `/` or `-`) as text, otherwise coerce non-empty numerics. -/
def csvCell (cell : String) : Cell :=
  let trimmedCell := removeChar '"' (jsTrim cell)
  if strContainsChar trimmedCell '/' || strContainsChar trimmedCell '-' then
    Cell.str trimmedCell
  else
    match jsToNumber trimmedCell with
    | none => Cell.str trimmedCell
    | some q => if trimmedCell = "" then Cell.str trimmedCell else Cell.num q

/-- CSV branch of `readFileData`: trim the text, drop `\r`, split lines on
`\n`, cells on `,`. -/
def readFileData (csvText : String) : List (List Cell) :=
  (splitChar '\n' (removeChar '\r' (jsTrim csvText))).map
    (fun row => (splitChar ',' row).map csvCell)

/-! ## Vocabulary used by the theorem statements -/

/-- The keys of an association-list map. -/
def keysOf {κ β : Type} (m : List (κ × β)) : List κ := m.map (fun p => p.1)

/-- The sum of the counts of a counting map. -/
def sumCounts {κ : Type} (m : List (κ × ℕ)) : ℕ := (m.map (fun p => p.2)).sum

/-- The profile's number range `1..totalNumbers`, as the rationals JS numbers
denote. -/
def rangeList (cfg : LotteryConfig) : List ℚ :=
  (List.range cfg.totalNumbers).map (fun i => ((i + 1 : ℕ) : ℚ))

/-! ## Concrete inputs used by counterexamples and witnesses -/

/-- Profile with 2 numbers, one number per draw. -/
def c1Cfg : LotteryConfig := ⟨2, 1, 1, 1, 1⟩

/-- A two-draw history, stored newest first: the newest draw contains number 1,
the older one contains number 2. -/
def c1Draws : List DrawData :=
  [⟨Cell.num 1, [(1 : ℚ)], ⟨2024, 0, 2⟩⟩, ⟨Cell.num 2, [(2 : ℚ)], ⟨2024, 0, 1⟩⟩]

def c2Cfg : LotteryConfig := ⟨10, 2, 2, 2, 2⟩

/-- A grid with no recognizable header: fatal for this file. -/
def c2BadGrid : List (List Cell) := [[Cell.str "nada"]]

/-- A well-formed grid holding one valid draw. -/
def c2GoodGrid : List (List Cell) :=
  [[Cell.str "Concurso", Cell.str "Data", Cell.str "Bola 1", Cell.str "Bola 2"],
   [Cell.num 7, Cell.str "02/01/2024", Cell.num 3, Cell.num 4]]

/-- The single draw carried by `c2GoodGrid`. -/
def c2GoodDraw : DrawData := ⟨Cell.num 7, [3, 4], ⟨2024, 0, 2⟩⟩

/-- Profile with `betSize = 6` but `hotCount = coldCount = 5 < betSize`. -/
def c3Cfg : LotteryConfig := ⟨10, 5, 6, 5, 5⟩

/-- A frequency table covering `1..10` with strictly decreasing counts. -/
def c3Freqs : List Frequency :=
  [⟨1, 10⟩, ⟨2, 9⟩, ⟨3, 8⟩, ⟨4, 7⟩, ⟨5, 6⟩, ⟨6, 5⟩, ⟨7, 4⟩, ⟨8, 3⟩, ⟨9, 2⟩, ⟨10, 1⟩]

def c5Cfg : LotteryConfig := ⟨60, 5, 6, 10, 10⟩

/-- A strict-header grid with six labeled ball columns and a data row holding
six distinct in-range numbers. -/
def c5Grid : List (List Cell) :=
  [[Cell.str "Concurso", Cell.str "Data", Cell.str "Bola 1", Cell.str "Bola 2",
    Cell.str "Bola 3", Cell.str "Bola 4", Cell.str "Bola 5", Cell.str "Bola 6"],
   [Cell.num 1, Cell.str "05/03/2024", Cell.num 1, Cell.num 2, Cell.num 3,
    Cell.num 4, Cell.num 5, Cell.num 6]]

/-- The data row of `c5Grid`. -/
def c5Row : List Cell :=
  [Cell.num 1, Cell.str "05/03/2024", Cell.num 1, Cell.num 2, Cell.num 3,
   Cell.num 4, Cell.num 5, Cell.num 6]

def c6Cfg : LotteryConfig := ⟨2, 1, 1, 1, 1⟩

/-- A one-draw history for the frequency-invariant witness. -/
def c6Hist : List DrawData := [⟨Cell.num 1, [(1 : ℚ)], ⟨2024, 0, 1⟩⟩]

def c7Cfg : LotteryConfig := ⟨5, 1, 1, 1, 1⟩

def c8Cfg : LotteryConfig := ⟨10, 2, 2, 2, 2⟩

/-- First file: contest 500 with numbers 1, 2. -/
def c8Grid1 : List (List Cell) :=
  [[Cell.str "Concurso", Cell.str "Data", Cell.str "Bola 1", Cell.str "Bola 2"],
   [Cell.num 500, Cell.str "01/01/2024", Cell.num 1, Cell.num 2]]

/-- Second file: the same contest 500 with different numbers 3, 4. -/
def c8Grid2 : List (List Cell) :=
  [[Cell.str "Concurso", Cell.str "Data", Cell.str "Bola 1", Cell.str "Bola 2"],
   [Cell.num 500, Cell.str "02/01/2024", Cell.num 3, Cell.num 4]]

def c8Draw1 : DrawData := ⟨Cell.num 500, [1, 2], ⟨2024, 0, 1⟩⟩

def c8Draw2 : DrawData := ⟨Cell.num 500, [3, 4], ⟨2024, 0, 2⟩⟩

/-- Profile whose `hotCount = coldCount = 1` exercise the top-up step. -/
def c9Cfg : LotteryConfig := ⟨10, 5, 6, 1, 1⟩

/-- A frequency table covering `1..10`. -/
def c9Freqs : List Frequency :=
  [⟨1, 10⟩, ⟨2, 9⟩, ⟨3, 8⟩, ⟨4, 7⟩, ⟨5, 6⟩, ⟨6, 5⟩, ⟨7, 4⟩, ⟨8, 3⟩, ⟨9, 2⟩, ⟨10, 1⟩]

def c10Cfg : LotteryConfig := ⟨10, 2, 2, 2, 2⟩

/-- First file: contest identifier read as the number 500. -/
def c10Grid1 : List (List Cell) :=
  [[Cell.str "Concurso", Cell.str "Data", Cell.str "Bola 1", Cell.str "Bola 2"],
   [Cell.num 500, Cell.str "01/01/2024", Cell.num 1, Cell.num 2]]

/-- Second file: contest identifier kept as the text "500". -/
def c10Grid2 : List (List Cell) :=
  [[Cell.str "Concurso", Cell.str "Data", Cell.str "Bola 1", Cell.str "Bola 2"],
   [Cell.str "500", Cell.str "02/01/2024", Cell.num 3, Cell.num 4]]

def c10Draw1 : DrawData := ⟨Cell.num 500, [1, 2], ⟨2024, 0, 1⟩⟩

def c10Draw2 : DrawData := ⟨Cell.str "500", [3, 4], ⟨2024, 0, 2⟩⟩

/-! ## Lemmas about `jsDedup` -/

theorem jsDedupAux_mem {α : Type} [DecidableEq α] (l : List α) :
    ∀ (seen : List α) (x : α), x ∈ jsDedupAux seen l ↔ x ∈ l ∧ ¬ x ∈ seen := by
  induction l with
  | nil => intro seen x; simp [jsDedupAux]
  | cons a t ih =>
    intro seen x
    by_cases ha : a ∈ seen
    · rw [jsDedupAux, if_pos ha, ih]
      simp only [List.mem_cons]
      constructor
      · rintro ⟨hx, hs⟩; exact ⟨Or.inr hx, hs⟩
      · rintro ⟨hx | hx, hs⟩
        · exact absurd (hx ▸ ha) hs
        · exact ⟨hx, hs⟩
    · rw [jsDedupAux, if_neg ha]
      simp only [List.mem_cons, ih]
      by_cases hxa : x = a
      · subst hxa; tauto
      · tauto

theorem jsDedupAux_nodup {α : Type} [DecidableEq α] (l : List α) :
    ∀ seen : List α, (jsDedupAux seen l).Nodup := by
  induction l with
  | nil => intro seen; simp [jsDedupAux]
  | cons a t ih =>
    intro seen
    by_cases ha : a ∈ seen
    · simpa [jsDedupAux, if_pos ha] using ih seen
    · rw [jsDedupAux, if_neg ha]
      refine List.nodup_cons.2 ⟨fun hmem => ?_, ih (a :: seen)⟩
      exact ((jsDedupAux_mem t (a :: seen) a).1 hmem).2 (List.mem_cons_self a seen)

theorem jsDedup_nodup {α : Type} [DecidableEq α] (l : List α) : (jsDedup l).Nodup :=
  jsDedupAux_nodup l []

theorem jsDedup_mem {α : Type} [DecidableEq α] (l : List α) (x : α) :
    x ∈ jsDedup l ↔ x ∈ l := by
  simpa [jsDedup] using jsDedupAux_mem l [] x

/-! ## Lemmas about `mapGet` / `mapSet` -/

theorem mapGet_nil {κ β : Type} [DecidableEq κ] (k : κ) :
    mapGet ([] : List (κ × β)) k = none := rfl

theorem mapGet_cons {κ β : Type} [DecidableEq κ] (a : κ × β) (m : List (κ × β)) (k : κ) :
    mapGet (a :: m) k = if a.1 = k then some a.2 else mapGet m k := by
  by_cases h : a.1 = k
  · simp [mapGet, List.find?_cons_of_pos, h]
  · simp [mapGet, List.find?_cons_of_neg, h]

theorem any_keys_iff {κ β : Type} [DecidableEq κ] (m : List (κ × β)) (k : κ) :
    m.any (fun p => p.1 = k) = true ↔ k ∈ keysOf m := by
  simp [keysOf, List.any_eq_true]

theorem keysOf_cons {κ β : Type} (a : κ × β) (m : List (κ × β)) :
    keysOf (a :: m) = a.1 :: keysOf m := rfl

theorem mapSet_nil {κ β : Type} [DecidableEq κ] (k : κ) (v : β) :
    mapSet ([] : List (κ × β)) k v = [(k, v)] := rfl

theorem mapSet_cons_ne {κ β : Type} [DecidableEq κ] (a : κ × β) (m : List (κ × β))
    (k : κ) (v : β) (h : ¬ a.1 = k) :
    mapSet (a :: m) k v = a :: mapSet m k v := by
  unfold mapSet
  have hany : ((a :: m).any (fun p => p.1 = k)) = (m.any (fun p => p.1 = k)) := by
    simp [List.any_cons, h]
  rw [hany]
  by_cases hm : m.any (fun p => p.1 = k) = true
  · simp [hm, h]
  · simp [hm]

theorem mapSet_cons_hit {κ β : Type} [DecidableEq κ] (k : κ) (w v : β) (m : List (κ × β))
    (hnd : ¬ k ∈ keysOf m) :
    mapSet ((k, w) :: m) k v = (k, v) :: m := by
  have hmap : m.map (fun p => if p.1 = k then (k, v) else p) = m := by
    have h1 : ∀ p ∈ m, (if p.1 = k then (k, v) else p) = id p := by
      intro p hp
      have hne : ¬ p.1 = k := fun he => hnd (he ▸ List.mem_map_of_mem (fun q => q.1) hp)
      simp [hne]
    rw [List.map_congr_left h1, List.map_id]
  simp [mapSet, hmap]

/-- Behavior of `mapSet` on a map with distinct keys, as structural equations. -/
theorem mapSet_cons {κ β : Type} [DecidableEq κ] (a : κ × β) (m : List (κ × β))
    (k : κ) (v : β) (hnd : (keysOf (a :: m)).Nodup) :
    mapSet (a :: m) k v = if a.1 = k then (k, v) :: m else a :: mapSet m k v := by
  by_cases h : a.1 = k
  · rw [keysOf_cons] at hnd
    have hk : ¬ k ∈ keysOf m := fun hm => (List.nodup_cons.1 hnd).1 (h ▸ hm)
    obtain ⟨a1, a2⟩ := a
    simp only at h
    subst h
    rw [if_pos rfl, mapSet_cons_hit a1 a2 v m hk]
  · rw [if_neg h, mapSet_cons_ne a m k v h]

theorem mem_keysOf_mapSet {κ β : Type} [DecidableEq κ] (m : List (κ × β)) (k q : κ) (v : β)
    (h : q ∈ keysOf (mapSet m k v)) : q ∈ keysOf m ∨ q = k := by
  unfold mapSet at h
  by_cases hm : m.any (fun p => p.1 = k) = true
  · rw [if_pos hm] at h
    rcases List.mem_map.1 h with ⟨p, hp, he⟩
    rcases List.mem_map.1 hp with ⟨p0, hp0, he0⟩
    by_cases h0 : p0.1 = k
    · right; rw [← he, ← he0]; simp [h0]
    · left; rw [← he, ← he0]; simp [h0]; exact List.mem_map_of_mem _ hp0
  · rw [if_neg hm] at h
    simp only [keysOf, List.map_append, List.mem_append, List.map_cons, List.map_nil,
      List.mem_cons, List.not_mem_nil, or_false] at h
    rcases h with h | h
    · exact Or.inl h
    · exact Or.inr h

theorem keysNodup_mapSet {κ β : Type} [DecidableEq κ] (m : List (κ × β)) (k : κ) (v : β)
    (h : (keysOf m).Nodup) : (keysOf (mapSet m k v)).Nodup := by
  induction m with
  | nil => simp [mapSet_nil, keysOf]
  | cons a t ih =>
    have hnd : (keysOf (a :: t)).Nodup := h
    rw [mapSet_cons a t k v hnd]
    rw [keysOf_cons] at h
    rcases List.nodup_cons.1 h with ⟨ha, ht⟩
    by_cases hak : a.1 = k
    · rw [if_pos hak]
      rw [keysOf_cons]
      exact List.nodup_cons.2 ⟨fun hm => ha (hak ▸ hm), ht⟩
    · rw [if_neg hak]
      rw [keysOf_cons]
      refine List.nodup_cons.2 ⟨fun hm => ?_, ih ht⟩
      rcases mem_keysOf_mapSet t k a.1 v hm with hmm | hmm
      · exact ha hmm
      · exact hak hmm

theorem mapGet_mapSet_self {κ β : Type} [DecidableEq κ] (m : List (κ × β)) (k : κ) (v : β)
    (h : (keysOf m).Nodup) : mapGet (mapSet m k v) k = some v := by
  induction m with
  | nil => simp [mapSet_nil, mapGet_cons]
  | cons a t ih =>
    rw [mapSet_cons a t k v h]
    rw [keysOf_cons] at h
    rcases List.nodup_cons.1 h with ⟨_, ht⟩
    by_cases hak : a.1 = k
    · rw [if_pos hak, mapGet_cons]; simp
    · rw [if_neg hak, mapGet_cons, if_neg hak]
      exact ih ht

theorem mapGet_mapSet_ne {κ β : Type} [DecidableEq κ] (m : List (κ × β)) (k q : κ) (v : β)
    (h : (keysOf m).Nodup) (hne : ¬ q = k) : mapGet (mapSet m k v) q = mapGet m q := by
  induction m with
  | nil =>
    rw [mapSet_nil, mapGet_cons, mapGet_nil, if_neg (fun he => hne he.symm)]
  | cons a t ih =>
    rw [mapSet_cons a t k v h]
    rw [keysOf_cons] at h
    rcases List.nodup_cons.1 h with ⟨_, ht⟩
    by_cases hak : a.1 = k
    · rw [if_pos hak, mapGet_cons, mapGet_cons]
      rw [if_neg (fun he : (k, v).1 = q => hne he.symm),
        if_neg (fun he : a.1 = q => hne (hak ▸ he).symm)]
    · rw [if_neg hak, mapGet_cons, mapGet_cons]
      by_cases haq : a.1 = q
      · rw [if_pos haq, if_pos haq]
      · rw [if_neg haq, if_neg haq]
        exact ih ht

theorem mapGet_isSome_iff {κ β : Type} [DecidableEq κ] (m : List (κ × β)) (k : κ) :
    (mapGet m k).isSome = true ↔ k ∈ keysOf m := by
  induction m with
  | nil => simp [mapGet_nil, keysOf]
  | cons a t ih =>
    rw [mapGet_cons, keysOf_cons]
    by_cases h : a.1 = k
    · simp [h]
    · simp only [if_neg h, List.mem_cons, ih]
      constructor
      · intro hh; exact Or.inr hh
      · rintro (rfl | hh)
        · exact absurd rfl h
        · exact hh

theorem sumCounts_nil {κ : Type} : sumCounts ([] : List (κ × ℕ)) = 0 := rfl

theorem sumCounts_cons {κ : Type} (a : κ × ℕ) (m : List (κ × ℕ)) :
    sumCounts (a :: m) = a.2 + sumCounts m := by simp [sumCounts]

theorem sumCounts_mapSet_new {κ : Type} [DecidableEq κ] (m : List (κ × ℕ)) (k : κ) (v : ℕ)
    (hg : mapGet m k = none) : sumCounts (mapSet m k v) = sumCounts m + v := by
  have hk : ¬ k ∈ keysOf m := by
    rw [← mapGet_isSome_iff, hg]; simp
  have hany : ¬ (m.any (fun p => p.1 = k) = true) := fun hh => hk ((any_keys_iff m k).1 hh)
  unfold mapSet
  rw [if_neg hany]
  simp [sumCounts]

theorem filter_keys_single {κ β : Type} [DecidableEq κ] (m : List (κ × β)) (k : κ) (v : β)
    (h : (keysOf m).Nodup) (hg : mapGet m k = some v) :
    m.filter (fun p => p.1 = k) = [(k, v)] := by
  induction m with
  | nil => simp [mapGet_nil] at hg
  | cons a t ih =>
    rw [keysOf_cons] at h
    rcases List.nodup_cons.1 h with ⟨ha, ht⟩
    rw [mapGet_cons] at hg
    by_cases hak : a.1 = k
    · rw [if_pos hak] at hg
      injection hg with hg
      have hnil : t.filter (fun p => p.1 = k) = [] := by
        rw [List.filter_eq_nil_iff]
        intro p hp
        simp only [decide_eq_true_eq]
        intro he
        exact ha (hak ▸ he ▸ List.mem_map_of_mem (fun p => p.1) hp)
      have hae : a = (k, v) := by
        obtain ⟨a1, a2⟩ := a
        simp only at hak hg
        rw [hak, hg]
      rw [List.filter_cons, hae]
      simp [hnil]
    · rw [if_neg hak] at hg
      rw [List.filter_cons]
      simp [hak, ih ht hg]

theorem filter_keys_nil {κ β : Type} [DecidableEq κ] (m : List (κ × β)) (k : κ)
    (hg : mapGet m k = none) : m.filter (fun p => p.1 = k) = [] := by
  induction m with
  | nil => rfl
  | cons a t ih =>
    rw [mapGet_cons] at hg
    by_cases hak : a.1 = k
    · rw [if_pos hak] at hg; cases hg
    · rw [if_neg hak] at hg
      rw [List.filter_cons]
      simp [hak, ih hg]

/-! ## Lemmas about the frequency accumulator of `processDraws` -/

theorem freqStep_keysNodup (m : List (ℚ × ℕ)) (n : ℚ) (h : (keysOf m).Nodup) :
    (keysOf (freqStep m n)).Nodup := keysNodup_mapSet _ _ _ h

theorem freqStep_get_ne (m : List (ℚ × ℕ)) (n q : ℚ) (h : (keysOf m).Nodup) (hne : ¬ q = n) :
    mapGet (freqStep m n) q = mapGet m q := mapGet_mapSet_ne _ _ _ _ h hne

theorem freqStep_keys_sub (m : List (ℚ × ℕ)) (n q : ℚ) (hq : q ∈ keysOf (freqStep m n)) :
    q ∈ keysOf m ∨ q = n := mem_keysOf_mapSet _ _ _ _ hq

theorem freqStep_sum (m : List (ℚ × ℕ)) (n : ℚ) (h : (keysOf m).Nodup) :
    sumCounts (freqStep m n) = sumCounts m + 1 := by
  induction m with
  | nil => rfl
  | cons a t ih =>
    have hcopy : (keysOf (a :: t)).Nodup := h
    rw [keysOf_cons] at h
    rcases List.nodup_cons.1 h with ⟨ha, ht⟩
    by_cases han : a.1 = n
    · have hget : mapGet (a :: t) n = some a.2 := by rw [mapGet_cons, if_pos han]
      have hset : mapSet (a :: t) n (a.2 + 1) = (n, a.2 + 1) :: t := by
        rw [mapSet_cons a t n _ hcopy, if_pos han]
      rw [freqStep, hget]
      simp only [Option.getD_some]
      rw [hset, sumCounts_cons, sumCounts_cons]
      omega
    · have hget : mapGet (a :: t) n = mapGet t n := by rw [mapGet_cons, if_neg han]
      have hstep : freqStep (a :: t) n = a :: freqStep t n := by
        rw [freqStep, hget, mapSet_cons_ne a t n _ han]; rfl
      rw [hstep, sumCounts_cons, sumCounts_cons, ih ht]
      omega

theorem freqInner_spec (ns : List ℚ) :
    ∀ m : List (ℚ × ℕ), (keysOf m).Nodup →
      (keysOf (ns.foldl freqStep m)).Nodup ∧
      sumCounts (ns.foldl freqStep m) = sumCounts m + ns.length ∧
      (∀ q, q ∈ keysOf (ns.foldl freqStep m) → q ∈ keysOf m ∨ q ∈ ns) ∧
      (∀ q, ¬ q ∈ ns → mapGet (ns.foldl freqStep m) q = mapGet m q) := by
  induction ns with
  | nil => intro m h; exact ⟨h, by simp, fun q hq => Or.inl hq, fun q _ => rfl⟩
  | cons n t ih =>
    intro m h
    have h1 := freqStep_keysNodup m n h
    obtain ⟨ind, isum, isub, iget⟩ := ih (freqStep m n) h1
    refine ⟨ind, ?_, ?_, ?_⟩
    · rw [List.foldl_cons, isum, freqStep_sum m n h, List.length_cons]
      omega
    · intro q hq
      rw [List.foldl_cons] at hq
      rcases isub q hq with hq1 | hq1
      · rcases freqStep_keys_sub m n q hq1 with h2 | h2
        · exact Or.inl h2
        · exact Or.inr (by simp [h2])
      · exact Or.inr (List.mem_cons_of_mem _ hq1)
    · intro q hq
      have hqn : ¬ q = n := fun he => hq (by simp [he])
      have hqt : ¬ q ∈ t := fun he => hq (List.mem_cons_of_mem _ he)
      rw [List.foldl_cons, iget q hqt, freqStep_get_ne m n q h hqn]

theorem freqFoldFrom_spec (draws : List DrawData) :
    ∀ m : List (ℚ × ℕ), (keysOf m).Nodup →
      (keysOf (draws.foldl (fun m d => d.numbers.foldl freqStep m) m)).Nodup ∧
      sumCounts (draws.foldl (fun m d => d.numbers.foldl freqStep m) m) =
        sumCounts m + (draws.map (fun d => d.numbers.length)).sum ∧
      (∀ q, q ∈ keysOf (draws.foldl (fun m d => d.numbers.foldl freqStep m) m) →
        q ∈ keysOf m ∨ ∃ d ∈ draws, q ∈ d.numbers) ∧
      (∀ q, (∀ d ∈ draws, ¬ q ∈ d.numbers) →
        mapGet (draws.foldl (fun m d => d.numbers.foldl freqStep m) m) q = mapGet m q) := by
  induction draws with
  | nil => intro m h; exact ⟨h, by simp, fun q hq => Or.inl hq, fun q _ => rfl⟩
  | cons d ds ih =>
    intro m h
    obtain ⟨jnd, jsum, jsub, jget⟩ := freqInner_spec d.numbers m h
    obtain ⟨ind, isum, isub, iget⟩ := ih (d.numbers.foldl freqStep m) jnd
    refine ⟨ind, ?_, ?_, ?_⟩
    · rw [List.foldl_cons, isum, jsum, List.map_cons, List.sum_cons]
      omega
    · intro q hq
      rw [List.foldl_cons] at hq
      rcases isub q hq with hq1 | hq1
      · rcases jsub q hq1 with h2 | h2
        · exact Or.inl h2
        · exact Or.inr ⟨d, List.mem_cons_self d ds, h2⟩
      · rcases hq1 with ⟨d0, hd0, hqd⟩
        exact Or.inr ⟨d0, List.mem_cons_of_mem _ hd0, hqd⟩
    · intro q hq
      have hd : ¬ q ∈ d.numbers := hq d (List.mem_cons_self d ds)
      have hds : ∀ d0 ∈ ds, ¬ q ∈ d0.numbers := fun d0 hd0 => hq d0 (List.mem_cons_of_mem _ hd0)
      rw [List.foldl_cons, iget q hds, jget q hd]

theorem freqFold_spec (draws : List DrawData) :
    (keysOf (freqFold draws)).Nodup ∧
    sumCounts (freqFold draws) = (draws.map (fun d => d.numbers.length)).sum ∧
    (∀ q, q ∈ keysOf (freqFold draws) → ∃ d ∈ draws, q ∈ d.numbers) ∧
    (∀ q, (∀ d ∈ draws, ¬ q ∈ d.numbers) → mapGet (freqFold draws) q = none) := by
  obtain ⟨h1, h2, h3, h4⟩ := freqFoldFrom_spec draws [] (by simp [keysOf])
  refine ⟨h1, by simpa [sumCounts_nil] using h2, fun q hq => ?_, fun q hq => ?_⟩
  · rcases h3 q hq with h | h
    · simp [keysOf] at h
    · exact h
  · have h5 := h4 q hq
    simpa [freqFold, mapGet_nil] using h5

/-! ## Lemmas about the zero-fill loop of `processDraws` -/

theorem zf_spec (is : List ℕ) :
    ∀ m : List (ℚ × ℕ), (keysOf m).Nodup →
      (keysOf (is.foldl zfStep m)).Nodup ∧
      sumCounts (is.foldl zfStep m) = sumCounts m ∧
      (∀ q, q ∈ keysOf (is.foldl zfStep m) →
        q ∈ keysOf m ∨ ∃ i ∈ is, q = ((i + 1 : ℕ) : ℚ)) ∧
      (∀ q, mapGet (is.foldl zfStep m) q =
        (mapGet m q).or (if ∃ i ∈ is, q = ((i + 1 : ℕ) : ℚ) then some 0 else none)) := by
  induction is with
  | nil =>
    intro m h
    refine ⟨h, rfl, fun q hq => Or.inl hq, fun q => ?_⟩
    simp
  | cons i t ih =>
    intro m h
    by_cases hs : (mapGet m ((i + 1 : ℕ) : ℚ)).isSome = true
    · have hz : zfStep m i = m := by rw [zfStep, if_pos hs]
      obtain ⟨ind, isum, isub, iget⟩ := ih m h
      rw [List.foldl_cons, hz]
      refine ⟨ind, isum, ?_, ?_⟩
      · intro q hq
        rcases isub q hq with hq1 | hq1
        · exact Or.inl hq1
        · rcases hq1 with ⟨j, hj, he⟩
          exact Or.inr ⟨j, List.mem_cons_of_mem _ hj, he⟩
      · intro q
        rw [iget q]
        by_cases hqi : q = ((i + 1 : ℕ) : ℚ)
        · subst hqi
          obtain ⟨c, hc⟩ := Option.isSome_iff_exists.1 hs
          rw [hc]
          simp
        · have hiff : (∃ j ∈ i :: t, q = ((j + 1 : ℕ) : ℚ)) ↔ (∃ j ∈ t, q = ((j + 1 : ℕ) : ℚ)) := by
            constructor
            · rintro ⟨j, hj, he⟩
              rcases List.mem_cons.1 hj with rfl | hj
              · exact absurd he hqi
              · exact ⟨j, hj, he⟩
            · rintro ⟨j, hj, he⟩
              exact ⟨j, List.mem_cons_of_mem _ hj, he⟩
          rw [if_congr hiff rfl rfl]
    · have hnone : mapGet m ((i + 1 : ℕ) : ℚ) = none := by
        cases hmg : mapGet m ((i + 1 : ℕ) : ℚ) with
        | none => rfl
        | some c => rw [hmg] at hs; simp at hs
      have hz : zfStep m i = mapSet m ((i + 1 : ℕ) : ℚ) 0 := by rw [zfStep, if_neg hs]
      have hnd1 : (keysOf (mapSet m ((i + 1 : ℕ) : ℚ) 0)).Nodup := keysNodup_mapSet _ _ _ h
      obtain ⟨ind, isum, isub, iget⟩ := ih (mapSet m ((i + 1 : ℕ) : ℚ) 0) hnd1
      rw [List.foldl_cons, hz]
      refine ⟨ind, ?_, ?_, ?_⟩
      · rw [isum, sumCounts_mapSet_new m _ 0 hnone]
        omega
      · intro q hq
        rcases isub q hq with hq1 | hq1
        · rcases mem_keysOf_mapSet m _ q 0 hq1 with h2 | h2
          · exact Or.inl h2
          · exact Or.inr ⟨i, List.mem_cons_self i t, h2⟩
        · rcases hq1 with ⟨j, hj, he⟩
          exact Or.inr ⟨j, List.mem_cons_of_mem _ hj, he⟩
      · intro q
        rw [iget q]
        by_cases hqi : q = ((i + 1 : ℕ) : ℚ)
        · rw [hqi, mapGet_mapSet_self m _ 0 h, hnone]
          have hex : ∃ j ∈ i :: t, ((i + 1 : ℕ) : ℚ) = ((j + 1 : ℕ) : ℚ) :=
            ⟨i, List.mem_cons_self i t, rfl⟩
          simp [Option.or_some, hex]
        · rw [mapGet_mapSet_ne m _ q 0 h hqi]
          have hiff : (∃ j ∈ i :: t, q = ((j + 1 : ℕ) : ℚ)) ↔ (∃ j ∈ t, q = ((j + 1 : ℕ) : ℚ)) := by
            constructor
            · rintro ⟨j, hj, he⟩
              rcases List.mem_cons.1 hj with rfl | hj
              · exact absurd he hqi
              · exact ⟨j, hj, he⟩
            · rintro ⟨j, hj, he⟩
              exact ⟨j, List.mem_cons_of_mem _ hj, he⟩
          rw [if_congr hiff rfl rfl]

/-! ## Claim C6: frequency-table invariants -/

theorem sum_map_const_of {α : Type} (l : List α) (f : α → ℕ) (c : ℕ) (h : ∀ x ∈ l, f x = c) :
    (l.map f).sum = l.length * c := by
  induction l with
  | nil => simp
  | cons a t ih =>
    rw [List.map_cons, List.sum_cons, ih (fun x hx => h x (List.mem_cons_of_mem _ hx)),
      h a (List.mem_cons_self a t), List.length_cons]
    ring

/-- C6: for every consolidated history in which every draw has exactly
`drawSize` members, all within the profile's range, the frequency table
produced by `processDraws` contains exactly one entry per number in
`[1, totalNumbers]` (with count 0 for numbers never drawn), no entry outside
the range, and the sum of all counts equals `totalDraws * drawSize`. -/
theorem c6_frequency_invariants (cfg : LotteryConfig) (hist : List DrawData)
    (hsize : ∀ d ∈ hist, d.numbers.length = cfg.drawSize)
    (hrange : ∀ d ∈ hist, ∀ q ∈ d.numbers, q ∈ rangeList cfg) :
    (∀ k ∈ rangeList cfg,
      ((processDraws hist cfg).frequencies.filter (fun f => f.number = k)).length = 1) ∧
    (∀ k ∈ rangeList cfg, (∀ d ∈ hist, ¬ k ∈ d.numbers) →
      (processDraws hist cfg).frequencies.filter (fun f => f.number = k) = [⟨k, 0⟩]) ∧
    (∀ f ∈ (processDraws hist cfg).frequencies, f.number ∈ rangeList cfg) ∧
    ((processDraws hist cfg).frequencies.map (fun f => f.count)).sum =
      (processDraws hist cfg).totalDraws * cfg.drawSize := by
  obtain ⟨fnd, fsum, fsub, fnone⟩ := freqFold_spec hist
  obtain ⟨znd, zsum, zsub, zget⟩ := zf_spec (List.range cfg.totalNumbers) (freqFold hist) fnd
  have hfreq : (processDraws hist cfg).frequencies =
      (((List.range cfg.totalNumbers).foldl zfStep (freqFold hist)).map
        (fun p => Frequency.mk p.1 p.2)).insertionSort freqOrd := rfl
  have htot : (processDraws hist cfg).totalDraws = hist.length := rfl
  have hperm : ((processDraws hist cfg).frequencies).Perm
      (((List.range cfg.totalNumbers).foldl zfStep (freqFold hist)).map
        (fun p => Frequency.mk p.1 p.2)) := by
    rw [hfreq]; exact List.perm_insertionSort _ _
  have hfiltermap : ∀ k : ℚ,
      ((((List.range cfg.totalNumbers).foldl zfStep (freqFold hist)).map
        (fun p => Frequency.mk p.1 p.2)).filter (fun f => f.number = k)) =
      (((List.range cfg.totalNumbers).foldl zfStep (freqFold hist)).filter
        (fun p => p.1 = k)).map (fun p => Frequency.mk p.1 p.2) := by
    intro k
    rw [List.filter_map]
    rfl
  have hkey : ∀ k ∈ rangeList cfg,
      ∃ c, mapGet ((List.range cfg.totalNumbers).foldl zfStep (freqFold hist)) k = some c ∧
        (mapGet (freqFold hist) k = none → c = 0) := by
    intro k hk
    rcases List.mem_map.1 hk with ⟨i, hi, he⟩
    have hex : ∃ j ∈ List.range cfg.totalNumbers, k = ((j + 1 : ℕ) : ℚ) := ⟨i, hi, he.symm⟩
    rw [zget k, if_pos hex]
    cases hg : mapGet (freqFold hist) k with
    | none => exact ⟨0, by simp, fun _ => rfl⟩
    | some c => exact ⟨c, by simp, fun hn => by simp at hn⟩
  refine ⟨?_, ?_, ?_, ?_⟩
  · intro k hk
    obtain ⟨c, hc, _⟩ := hkey k hk
    have hflt := filter_keys_single _ k c znd hc
    rw [(hperm.filter (fun f => f.number = k)).length_eq, hfiltermap k, hflt]
    rfl
  · intro k hk hnever
    obtain ⟨c, hc, hzero⟩ := hkey k hk
    have h0 : c = 0 := hzero (fnone k hnever)
    subst h0
    have hflt := filter_keys_single _ k 0 znd hc
    have : ((processDraws hist cfg).frequencies.filter (fun f => f.number = k)).Perm
        [Frequency.mk k 0] := by
      have := hperm.filter (fun f => f.number = k)
      rw [hfiltermap k, hflt] at this
      simpa using this
    exact List.perm_singleton.1 this
  · intro f hf
    have hf2 := hperm.mem_iff.1 hf
    rcases List.mem_map.1 hf2 with ⟨p, hp, rfl⟩
    have hkmem : p.1 ∈ keysOf ((List.range cfg.totalNumbers).foldl zfStep (freqFold hist)) :=
      List.mem_map_of_mem (fun p => p.1) hp
    rcases zsub p.1 hkmem with hkm | hkm
    · rcases fsub p.1 hkm with ⟨d, hd, hqd⟩
      exact hrange d hd p.1 hqd
    · rcases hkm with ⟨i, hi, he⟩
      exact he ▸ List.mem_map_of_mem _ hi
  · have hmapped : ((processDraws hist cfg).frequencies.map (fun f => f.count)).Perm
        (((List.range cfg.totalNumbers).foldl zfStep (freqFold hist)).map (fun p => p.2)) := by
      have h1 := hperm.map (fun f => f.count)
      rw [List.map_map] at h1
      exact h1
    rw [hmapped.sum_eq]
    have hsc : (((List.range cfg.totalNumbers).foldl zfStep (freqFold hist)).map
        (fun p => p.2)).sum = sumCounts ((List.range cfg.totalNumbers).foldl zfStep (freqFold hist)) := rfl
    rw [hsc, zsum, fsum, htot]
    exact sum_map_const_of hist _ cfg.drawSize hsize

/-- Witness for C6 at a one-draw history over the range `1..2`. -/
theorem c6_witness :
    ((processDraws c6Hist c6Cfg).frequencies.filter (fun f => f.number = (1 : ℚ))).length = 1 ∧
    (processDraws c6Hist c6Cfg).frequencies.filter (fun f => f.number = (2 : ℚ)) = [⟨2, 0⟩] ∧
    ((processDraws c6Hist c6Cfg).frequencies.map (fun f => f.count)).sum =
      (processDraws c6Hist c6Cfg).totalDraws * c6Cfg.drawSize := by
  have h := c6_frequency_invariants c6Cfg c6Hist (by decide) (by decide)
  exact ⟨h.1 1 (by decide), h.2.1 2 (by decide) (by decide), h.2.2.2⟩


/-! ## Claim C1: currentDelay in `processDraws` -/

/-- C1 (the code evaluated at a failing input): `processDraws` iterates the
newest-first history forward, so `lastSeen` ends at each number's OLDEST
occurrence and `currentDelay = historyLength - 1 - lastSeenIndex` measures
from the wrong end. For `c1Draws` (number 1 only in the newest draw, number 2
only in the oldest), the code reports delays 1 and 0, while the number of
draws elapsed since each number's most recent occurrence — the spec's
`currentDelay`, stated by `specCurrentDelay` — is 0 and 1. -/
theorem c1_currentDelay_code_vs_spec :
    ((processDraws c1Draws c1Cfg).intervalStats.map (fun s => (s.number, s.currentDelay))) =
      [(1, 1), (2, 0)] ∧
    specCurrentDelay c1Draws 1 = 0 ∧ specCurrentDelay c1Draws 2 = 1 := by
  refine ⟨by decide, by decide, by decide⟩

/-! ## Claim C2: one failing file aborts the batch -/

/-- C2 counterexample: in the batch `[c2BadGrid, c2GoodGrid]` the first file's
header cannot be located, and `analyzeLotteryData` reports a batch-level
error: the good file's valid draw appears in no merged history, even though
the good file alone parses to exactly that draw. -/
theorem c2_counterexample :
    analyzeLotteryData [c2BadGrid, c2GoodGrid] c2Cfg =
      .error ("Erro ao processar o arquivo: " ++ headerErrMsg) ∧
    analyzeLotteryData [c2GoodGrid] c2Cfg = .ok [c2GoodDraw] := by
  exact ⟨by decide, by decide⟩

/-- C2 amended: when any file of the batch fails to parse (for example its
header cannot be located), `analyzeLotteryData` fails for the whole batch with
a wrapped per-file error; the remaining files' draws do not appear anywhere —
there is no merged history at all. -/
theorem c2_batch_aborts_on_file_error (cfg : LotteryConfig)
    (files : List (List (List Cell))) (g : List (List Cell))
    (hg : g ∈ files) (he : ∃ e, parseRawDataToDraws g cfg = .error e) :
    ∃ e, analyzeLotteryData files cfg = .error e := by
  have main : ∀ (fs : List (List (List Cell))) (acc : List (Cell × DrawData)),
      g ∈ fs → ∃ e, analyzeGo cfg fs acc = .error e := by
    intro fs
    induction fs with
    | nil => intro acc h; exact absurd h (List.not_mem_nil g)
    | cons f t ih =>
      intro acc hmem
      cases hp : parseRawDataToDraws f cfg with
      | error e => exact ⟨_, by simp only [analyzeGo]; rw [hp]⟩
      | ok ds =>
        rcases List.mem_cons.1 hmem with rfl | hmem2
        · obtain ⟨e, he2⟩ := he
          rw [hp] at he2; cases he2
        · obtain ⟨e, he2⟩ := ih (consolidate acc ds) hmem2
          exact ⟨e, by simp only [analyzeGo]; rw [hp]; exact he2⟩
  obtain ⟨e, he2⟩ := main files [] hg
  unfold analyzeLotteryData
  rw [he2]
  exact ⟨e, rfl⟩

/-- Witness for C2's amended statement on a concrete failing batch. -/
theorem c2_witness : ∃ e, analyzeLotteryData [c2BadGrid] c2Cfg = .error e :=
  c2_batch_aborts_on_file_error c2Cfg [c2BadGrid] c2BadGrid (by decide)
    ⟨headerErrMsg, by decide⟩

/-! ## Claim C4: CSV cell coercion -/

/-- C4 counterexample: the CSV reader protects only `/` and `-`; a cell whose
content contains `.` is still coerced — `"1.5"` is returned as the number
`3/2`, not kept as text. -/
theorem c4_counterexample :
    csvCell "1.5" = Cell.num (mkRat 3 2) ∧ strContainsChar "1.5" '.' = true := by
  exact ⟨by decide, by decide⟩

/-- C4 amended: a cell whose trimmed, unquoted content contains `/` or `-` is
kept as a text string; any other cell whose content is non-empty and numeric
is returned as a number (cells containing only `.` as a separator are NOT
protected). -/
theorem c4_csv_coercion (s t : String) (q : ℚ)
    (ht : t = removeChar '"' (jsTrim s)) :
    ((strContainsChar t '/' = true ∨ strContainsChar t '-' = true) → csvCell s = Cell.str t) ∧
    (strContainsChar t '/' = false → strContainsChar t '-' = false → ¬ t = "" →
      jsToNumber t = some q → csvCell s = Cell.num q) := by
  subst ht
  refine ⟨fun h => ?_, fun h1 h2 h3 h4 => ?_⟩
  · rcases h with h | h
    · simp [csvCell, h]
    · simp [csvCell, h]
  · simp [csvCell, h1, h2, h3, h4]

/-- Witness for C4's amended statement: a date-like cell stays text, a plain
numeric cell is coerced. -/
theorem c4_witness :
    csvCell "12/05/2024" = Cell.str "12/05/2024" ∧ csvCell "7" = Cell.num 7 := by
  constructor
  · exact (c4_csv_coercion "12/05/2024" "12/05/2024" 0 (by decide)).1 (Or.inl (by decide))
  · exact (c4_csv_coercion "7" "7" 7 (by decide)).2 (by decide) (by decide) (by decide)
      (by decide)

/-! ## Claim C5: rows with the wrong number of draw numbers -/

/-- C5 counterexample: with six labeled ball columns, strict header mode
selects only the first `drawSize = 5`, so the data row of `c5Grid` — which
contains 6 distinct in-range numbers — is NOT dropped: it yields a draw
truncated to the first five ball columns. -/
theorem c5_counterexample :
    (jsDedup ((c5Row.filterMap cellNumber).filter (inRangeQ c5Cfg))).length = 6 ∧
    c5Cfg.drawSize = 5 ∧
    parseRawDataToDraws c5Grid c5Cfg =
      .ok [⟨Cell.num 1, [1, 2, 3, 4, 5], ⟨2024, 2, 5⟩⟩] := by
  refine ⟨by decide, by decide, by decide⟩

/-- C5 amended: a row whose EXTRACTED number set (read from the selected
`drawSize` ball columns in strict mode, or from the whole-row scan in loose
mode) has 6 members while `drawSize = 5` yields no draw at all: the
validating filter drops the row, and no truncated draw is built from the
extracted set. -/
theorem c5_wrong_size_row_dropped (cfg : LotteryConfig) (r : RawDraw)
    (h5 : cfg.drawSize = 5) (h6 : r.numbers.length = 6) :
    rawToDraw? cfg r = none := by
  obtain ⟨oc, nums, od⟩ := r
  simp only at h6
  cases oc with
  | none => rfl
  | some c =>
    cases od with
    | none => rfl
    | some dt =>
      have hcond : ¬ (nums.length = cfg.drawSize ∧ ¬ c = Cell.str "") := by
        rintro ⟨hl, -⟩
        rw [h5] at hl
        omega
      simp only [rawToDraw?]
      rw [if_neg hcond]

/-- Witness for C5's amended statement at a concrete six-number row. -/
theorem c5_witness :
    rawToDraw? c5Cfg ⟨some (Cell.num 1), [1, 2, 3, 4, 5, 6], some ⟨2024, 2, 5⟩⟩ = none :=
  c5_wrong_size_row_dropped c5Cfg _ (by decide) (by decide)

/-! ## Claim C7: invalid dates are row-level failures -/

/-- C7: the date parser returns "no date" (`none`) rather than raising, both
when no date pattern is present and when the matched day/month/year components
do not round-trip to a real calendar date (e.g. `"31/02/2024"`, whose February
has only 29 days in 2024); a row whose date parsed to `none` is silently
excluded by the validating filter; and row contents never cause a file-level
error — `parseRawDataToDraws` either succeeds or fails with the header error
only. -/
theorem c7_parseDate_rejects_invalid :
    (∀ s : String, findDatePattern s = none → parseDate (Cell.str s) = none) ∧
    (∀ (s : String) (d m y : ℕ), findDatePattern s = some (d, m, y) →
      ¬ dateComponentsValid (fixYear y) m d → parseDate (Cell.str s) = none) ∧
    parseDate (Cell.str "31/02/2024") = none ∧
    (∀ (cfg : LotteryConfig) (oc : Option Cell) (nums : List ℚ),
      rawToDraw? cfg ⟨oc, nums, none⟩ = none) ∧
    (∀ (grid : List (List Cell)) (cfg : LotteryConfig),
      (∃ ds, parseRawDataToDraws grid cfg = .ok ds) ∨
        parseRawDataToDraws grid cfg = .error headerErrMsg) := by
  refine ⟨?_, ?_, by decide, ?_, ?_⟩
  · intro s hp
    unfold parseDate
    by_cases hf : Cell.str s = Cell.str "" ∨ Cell.str s = Cell.num 0
    · rw [if_pos hf]
    · rw [if_neg hf]
      have hid : jsCellString (Cell.str s) = s := rfl
      rw [hid, hp]
  · intro s d m y hp hv
    unfold parseDate
    by_cases hf : Cell.str s = Cell.str "" ∨ Cell.str s = Cell.num 0
    · rw [if_pos hf]
    · rw [if_neg hf]
      have hid : jsCellString (Cell.str s) = s := rfl
      rw [hid, hp]
      simp [hv]
  · intro cfg oc nums
    cases oc with
    | none => rfl
    | some c => rfl
  · intro grid cfg
    unfold parseRawDataToDraws
    by_cases hgr : grid.isEmpty
    · rw [if_pos hgr]; exact Or.inl ⟨[], rfl⟩
    · rw [if_neg hgr]
      cases h1 : findHeader1 grid cfg with
      | some v =>
        obtain ⟨hi, ci, di, idxs⟩ := v
        exact Or.inl ⟨_, rfl⟩
      | none =>
        cases h2 : findHeader2 grid cfg with
        | some v =>
          obtain ⟨hi, ci, di⟩ := v
          exact Or.inl ⟨_, rfl⟩
        | none => exact Or.inr rfl

/-- Witness for C7 at concrete cells and a concrete dateless row. -/
theorem c7_witness :
    parseDate (Cell.str "sem data aqui") = none ∧
    parseDate (Cell.str "31/13/2024") = none ∧
    rawToDraw? c7Cfg ⟨some (Cell.num 1), [1], none⟩ = none := by
  refine ⟨?_, ?_, ?_⟩
  · exact c7_parseDate_rejects_invalid.1 "sem data aqui" (by decide)
  · exact c7_parseDate_rejects_invalid.2.1 "31/13/2024" 31 13 2024 (by decide) (by decide)
  · exact c7_parseDate_rejects_invalid.2.2.2.1 c7Cfg (some (Cell.num 1)) [1]


/-! ## Lemmas about the draw-consolidation map -/

theorem getLast?_cons_or {α : Type} (a : α) (l : List α) :
    (a :: l).getLast? = l.getLast?.or (some a) := by
  induction l generalizing a with
  | nil => rfl
  | cons b t ih =>
    rw [List.getLast?_cons_cons, ih b, Option.or_assoc, Option.or_some]

theorem mapSet_entries {κ β : Type} [DecidableEq κ] (m : List (κ × β)) (k : κ) (v : β)
    (p : κ × β) (hp : p ∈ mapSet m k v) : p = (k, v) ∨ p ∈ m := by
  unfold mapSet at hp
  by_cases hm : m.any (fun p => p.1 = k) = true
  · rw [if_pos hm] at hp
    rcases List.mem_map.1 hp with ⟨p0, hp0, he⟩
    by_cases h0 : p0.1 = k
    · left; rw [← he]; simp [h0]
    · right; rw [← he]; simpa [h0] using hp0
  · rw [if_neg hm] at hp
    rcases List.mem_append.1 hp with h | h
    · exact Or.inr h
    · left; simpa using h

theorem consolidate_append (m : List (Cell × DrawData)) (ds1 ds2 : List DrawData) :
    consolidate (consolidate m ds1) ds2 = consolidate m (ds1 ++ ds2) :=
  (List.foldl_append _ _ _ _).symm

theorem consolidate_keysNodup (ds : List DrawData) :
    ∀ m : List (Cell × DrawData), (keysOf m).Nodup → (keysOf (consolidate m ds)).Nodup := by
  induction ds with
  | nil => intro m h; exact h
  | cons d t ih =>
    intro m h
    exact ih (mapSet m d.contest d) (keysNodup_mapSet m _ _ h)

theorem consolidate_entries (ds : List DrawData) :
    ∀ m : List (Cell × DrawData), (∀ p ∈ m, p.1 = p.2.contest) →
      ∀ p ∈ consolidate m ds, p.1 = p.2.contest := by
  induction ds with
  | nil => intro m h; exact h
  | cons d t ih =>
    intro m h
    apply ih
    intro p hp
    rcases mapSet_entries m d.contest d p hp with h1 | h1
    · rw [h1]
    · exact h p h1

theorem mapGet_consolidate (ds : List DrawData) :
    ∀ (m : List (Cell × DrawData)), (keysOf m).Nodup → ∀ c : Cell,
      mapGet (consolidate m ds) c =
        ((ds.filter (fun d => d.contest = c)).getLast?).or (mapGet m c) := by
  induction ds with
  | nil => intro m _ c; simp [consolidate]
  | cons d t ih =>
    intro m hm c
    have hstep : consolidate m (d :: t) = consolidate (mapSet m d.contest d) t := rfl
    rw [hstep, ih (mapSet m d.contest d) (keysNodup_mapSet m _ _ hm) c, List.filter_cons]
    by_cases hdc : d.contest = c
    · subst hdc
      have hget : mapGet (mapSet m d.contest d) d.contest = some d :=
        mapGet_mapSet_self m _ d hm
      rw [hget, if_pos (by simp), getLast?_cons_or, Option.or_assoc, Option.or_some]
    · have hget : mapGet (mapSet m d.contest d) c = mapGet m c :=
        mapGet_mapSet_ne m d.contest c d hm (fun he => hdc he.symm)
      rw [hget]
      simp [hdc]

theorem values_filter_of_get (m : List (Cell × DrawData)) (c : Cell) (v : DrawData)
    (hnd : (keysOf m).Nodup) (hent : ∀ p ∈ m, p.1 = p.2.contest)
    (hg : mapGet m c = some v) :
    (m.map (fun p => p.2)).filter (fun d => d.contest = c) = [v] := by
  induction m with
  | nil => simp [mapGet_nil] at hg
  | cons a t ih =>
    rw [keysOf_cons] at hnd
    rcases List.nodup_cons.1 hnd with ⟨ha, ht⟩
    rw [mapGet_cons] at hg
    have haent : a.1 = a.2.contest := hent a (List.mem_cons_self a t)
    rw [List.map_cons, List.filter_cons]
    by_cases hak : a.1 = c
    · rw [if_pos hak] at hg
      injection hg with hg
      have hc2 : a.2.contest = c := haent ▸ hak
      have hnil : (t.map (fun p => p.2)).filter (fun d => d.contest = c) = [] := by
        rw [List.filter_eq_nil_iff]
        intro d hd
        rcases List.mem_map.1 hd with ⟨p, hp, rfl⟩
        simp only [decide_eq_true_eq]
        intro hcc
        have hp1 : p.1 = p.2.contest := hent p (List.mem_cons_of_mem _ hp)
        have hp2 : p.1 = c := hp1.trans hcc
        have hp3 : c ∈ keysOf t := hp2 ▸ List.mem_map_of_mem (fun p => p.1) hp
        exact (hak ▸ ha : ¬ c ∈ keysOf t) hp3
      rw [if_pos (by simp [hc2]), hnil, hg]
    · rw [if_neg hak] at hg
      have hc2 : ¬ a.2.contest = c := fun he => hak (haent ▸ he)
      rw [if_neg (by simp [hc2])]
      exact ih ht (fun p hp => hent p (List.mem_cons_of_mem _ hp)) hg

/-- The merged two-file history: its draws with a given contest key are exactly
the last write for that key. -/
theorem merged_history_filter (cfg : LotteryConfig) (g1 g2 : List (List Cell))
    (ds1 ds2 : List DrawData) (c : Cell) (v : DrawData)
    (h1 : parseRawDataToDraws g1 cfg = .ok ds1)
    (h2 : parseRawDataToDraws g2 cfg = .ok ds2)
    (hlast : ((ds1 ++ ds2).filter (fun d => d.contest = c)).getLast? = some v) :
    ∃ hist, analyzeLotteryData [g1, g2] cfg = .ok hist ∧
      hist.filter (fun d => d.contest = c) = [v] := by
  have hgo : analyzeGo cfg [g1, g2] [] = .ok (consolidate [] (ds1 ++ ds2)) := by
    simp only [analyzeGo, h1, h2]
    rw [consolidate_append]
  have hnil : (keysOf ([] : List (Cell × DrawData))).Nodup := by simp [keysOf]
  have hnd := consolidate_keysNodup (ds1 ++ ds2) [] hnil
  have hent := consolidate_entries (ds1 ++ ds2) [] (by intro p hp; cases hp)
  have hget : mapGet (consolidate [] (ds1 ++ ds2)) c = some v := by
    rw [mapGet_consolidate (ds1 ++ ds2) [] hnil c, hlast, mapGet_nil, Option.or_some]
  have hne : (consolidate [] (ds1 ++ ds2)).isEmpty = false := by
    cases hcc : consolidate [] (ds1 ++ ds2) with
    | nil => rw [hcc] at hget; simp [mapGet_nil] at hget
    | cons a t => rfl
  refine ⟨((consolidate [] (ds1 ++ ds2)).map (fun p => p.2)).insertionSort dateGe, ?_, ?_⟩
  · unfold analyzeLotteryData
    rw [hgo]
    simp only [hne]
    rw [if_neg (by simp [hne])]
  · have hperm := (List.perm_insertionSort dateGe
      ((consolidate [] (ds1 ++ ds2)).map (fun p => p.2))).filter
      (fun d => d.contest = c)
    rw [values_filter_of_get _ c v hnd hent hget] at hperm
    exact List.perm_singleton.1 hperm

/-! ## Claim C8: last-write-wins merge by contest id -/

/-- C8: when two files each contain exactly one draw for the same contest
identifier (with possibly different number sets), the merged history produced
by `analyzeLotteryData` contains exactly one draw for that identifier, and it
is the one from the later-loaded file. -/
theorem c8_last_write_wins (cfg : LotteryConfig) (g1 g2 : List (List Cell))
    (ds1 ds2 : List DrawData) (c : Cell) (d1 d2 : DrawData)
    (h1 : parseRawDataToDraws g1 cfg = .ok ds1)
    (h2 : parseRawDataToDraws g2 cfg = .ok ds2)
    (hc1 : ds1.filter (fun d => d.contest = c) = [d1])
    (hc2 : ds2.filter (fun d => d.contest = c) = [d2]) :
    ∃ hist, analyzeLotteryData [g1, g2] cfg = .ok hist ∧
      hist.filter (fun d => d.contest = c) = [d2] := by
  apply merged_history_filter cfg g1 g2 ds1 ds2 c d2 h1 h2
  rw [List.filter_append, hc1, hc2]
  rfl

/-- Witness for C8: both concrete files carry contest 500; the merged history
holds exactly the second file's draw for it. -/
theorem c8_witness :
    ∃ hist, analyzeLotteryData [c8Grid1, c8Grid2] c8Cfg = .ok hist ∧
      hist.filter (fun d => d.contest = Cell.num 500) = [c8Draw2] :=
  c8_last_write_wins c8Cfg c8Grid1 c8Grid2 [c8Draw1] [c8Draw2] (Cell.num 500) c8Draw1 c8Draw2
    (by decide) (by decide) (by decide) (by decide)

/-! ## Claim C10: type-sensitive contest identifiers -/

/-- C10: deduplication compares contest identifiers with type-sensitive
equality — a draw whose identifier is the number 500 and one whose identifier
is the string "500" are distinct keys, and BOTH are retained in the merged
history. -/
theorem c10_contest_id_type_sensitive (cfg : LotteryConfig) (g1 g2 : List (List Cell))
    (ds1 ds2 : List DrawData) (d1 d2 : DrawData)
    (h1 : parseRawDataToDraws g1 cfg = .ok ds1)
    (h2 : parseRawDataToDraws g2 cfg = .ok ds2)
    (hq : (ds1 ++ ds2).filter (fun d => d.contest = Cell.num 500) = [d1])
    (hs : (ds1 ++ ds2).filter (fun d => d.contest = Cell.str "500") = [d2]) :
    ∃ hist, analyzeLotteryData [g1, g2] cfg = .ok hist ∧
      hist.filter (fun d => d.contest = Cell.num 500) = [d1] ∧
      hist.filter (fun d => d.contest = Cell.str "500") = [d2] := by
  obtain ⟨hist1, hh1, hf1⟩ := merged_history_filter cfg g1 g2 ds1 ds2 (Cell.num 500) d1 h1 h2
    (by rw [hq]; rfl)
  obtain ⟨hist2, hh2, hf2⟩ := merged_history_filter cfg g1 g2 ds1 ds2 (Cell.str "500") d2 h1 h2
    (by rw [hs]; rfl)
  refine ⟨hist1, hh1, hf1, ?_⟩
  rw [hh1] at hh2
  injection hh2 with hh2
  rw [hh2]
  exact hf2

/-- Witness for C10: one file's contest cell is the number 500, the other's is
the text "500"; the merged history retains both draws. -/
theorem c10_witness :
    ∃ hist, analyzeLotteryData [c10Grid1, c10Grid2] c10Cfg = .ok hist ∧
      hist.filter (fun d => d.contest = Cell.num 500) = [c10Draw1] ∧
      hist.filter (fun d => d.contest = Cell.str "500") = [c10Draw2] :=
  c10_contest_id_type_sensitive c10Cfg c10Grid1 c10Grid2 [c10Draw1] [c10Draw2]
    c10Draw1 c10Draw2 (by decide) (by decide) (by decide) (by decide)


/-! ## Lemmas about `pickRandomNumbers` and the suggestion pools -/

theorem rangeList_length (cfg : LotteryConfig) : (rangeList cfg).length = cfg.totalNumbers := by
  simp [rangeList]

theorem rangeList_nodup (cfg : LotteryConfig) : (rangeList cfg).Nodup := by
  refine List.Nodup.map ?_ (List.nodup_range _)
  intro i j h
  have h2 : (i + 1 : ℕ) = (j + 1 : ℕ) := Nat.cast_injective h
  omega

theorem pick_length (shuffle : List ℚ → List ℚ) (hs : ∀ xs, (shuffle xs).Perm xs)
    (pool : List ℚ) (k : ℕ) :
    (pickRandomNumbers shuffle pool k).length = min k pool.length := by
  unfold pickRandomNumbers
  rw [(List.perm_insertionSort _ _).length_eq, List.length_take, (hs pool).length_eq,
    inf_eq_min]

theorem pick_subset (shuffle : List ℚ → List ℚ) (hs : ∀ xs, (shuffle xs).Perm xs)
    (pool : List ℚ) (k : ℕ) :
    ∀ x ∈ pickRandomNumbers shuffle pool k, x ∈ pool := by
  intro x hx
  unfold pickRandomNumbers at hx
  have hx1 := (List.perm_insertionSort (· ≤ ·) ((shuffle pool).take k)).mem_iff.1 hx
  exact (hs pool).mem_iff.1 (List.take_subset _ _ hx1)

theorem pick_nodup (shuffle : List ℚ → List ℚ) (hs : ∀ xs, (shuffle xs).Perm xs)
    (pool : List ℚ) (k : ℕ) (h : pool.Nodup) :
    (pickRandomNumbers shuffle pool k).Nodup := by
  unfold pickRandomNumbers
  have h1 : (shuffle pool).Nodup := (hs pool).symm.nodup h
  have h2 : ((shuffle pool).take k).Nodup := (List.take_sublist k _).nodup h1
  exact (List.perm_insertionSort _ _).symm.nodup h2

theorem pick_sorted (shuffle : List ℚ → List ℚ) (pool : List ℚ) (k : ℕ) :
    List.Sorted (· ≤ ·) (pickRandomNumbers shuffle pool k) :=
  List.sorted_insertionSort _ _

theorem pick_pairwise_lt (shuffle : List ℚ → List ℚ) (hs : ∀ xs, (shuffle xs).Perm xs)
    (pool : List ℚ) (k : ℕ) (hnd : pool.Nodup) :
    (pickRandomNumbers shuffle pool k).Pairwise (· < ·) :=
  (List.Pairwise.and (pick_sorted shuffle pool k) (pick_nodup shuffle hs pool k hnd)).imp
    (fun h => lt_of_le_of_ne h.1 h.2)

theorem sortedByFreq_perm (frequencies : List Frequency) :
    (sortedByFreq frequencies).Perm frequencies :=
  List.perm_insertionSort _ _

theorem sortedNumbers_perm (frequencies : List Frequency) (cfg : LotteryConfig)
    (hcover : (frequencies.map (fun f => f.number)).Perm (rangeList cfg)) :
    (((sortedByFreq frequencies).map (fun f => f.number))).Perm (rangeList cfg) :=
  ((sortedByFreq_perm frequencies).map _).trans hcover

theorem hotPool_facts (frequencies : List Frequency) (cfg : LotteryConfig)
    (hcover : (frequencies.map (fun f => f.number)).Perm (rangeList cfg)) :
    (hotNumbersOf frequencies cfg).length = min cfg.hotCount cfg.totalNumbers ∧
    (hotNumbersOf frequencies cfg).Nodup ∧
    (∀ x ∈ hotNumbersOf frequencies cfg, x ∈ rangeList cfg) := by
  have hlen : frequencies.length = cfg.totalNumbers := by
    have h := hcover.length_eq
    rw [List.length_map, rangeList_length] at h
    exact h
  have hsperm := sortedNumbers_perm frequencies cfg hcover
  have hsnodup : ((sortedByFreq frequencies).map (fun f => f.number)).Nodup :=
    hsperm.symm.nodup (rangeList_nodup cfg)
  refine ⟨?_, ?_, ?_⟩
  · unfold hotNumbersOf
    rw [List.length_map, List.length_take, (sortedByFreq_perm frequencies).length_eq, hlen,
      inf_eq_min]
  · unfold hotNumbersOf
    rw [List.map_take]
    exact (List.take_sublist _ _).nodup hsnodup
  · intro x hx
    unfold hotNumbersOf at hx
    rw [List.map_take] at hx
    exact hsperm.mem_iff.1 (List.take_subset _ _ hx)

theorem coldPool_subset (frequencies : List Frequency) (cfg : LotteryConfig)
    (hcover : (frequencies.map (fun f => f.number)).Perm (rangeList cfg)) :
    ∀ x ∈ coldNumbersOf frequencies cfg, x ∈ rangeList cfg := by
  have hsperm := sortedNumbers_perm frequencies cfg hcover
  intro x hx
  unfold coldNumbersOf at hx
  by_cases hcc : cfg.coldCount = 0
  · rw [if_pos hcc] at hx
    exact hsperm.mem_iff.1 hx
  · rw [if_neg hcc, List.map_drop] at hx
    exact hsperm.mem_iff.1 (List.drop_subset _ _ hx)

theorem coldPool_nodup (frequencies : List Frequency) (cfg : LotteryConfig)
    (hcover : (frequencies.map (fun f => f.number)).Perm (rangeList cfg)) :
    (coldNumbersOf frequencies cfg).Nodup := by
  have hsperm := sortedNumbers_perm frequencies cfg hcover
  have hsnodup : ((sortedByFreq frequencies).map (fun f => f.number)).Nodup :=
    hsperm.symm.nodup (rangeList_nodup cfg)
  unfold coldNumbersOf
  by_cases hcc : cfg.coldCount = 0
  · rw [if_pos hcc]; exact hsnodup
  · rw [if_neg hcc, List.map_drop]
    exact (List.drop_sublist _ _).nodup hsnodup

theorem coldPool_length (frequencies : List Frequency) (cfg : LotteryConfig)
    (hcover : (frequencies.map (fun f => f.number)).Perm (rangeList cfg))
    (hc : 1 ≤ cfg.coldCount) :
    (coldNumbersOf frequencies cfg).length = min cfg.coldCount cfg.totalNumbers := by
  have hlen : frequencies.length = cfg.totalNumbers := by
    have h := hcover.length_eq
    rw [List.length_map, rangeList_length] at h
    exact h
  have hslen : (sortedByFreq frequencies).length = cfg.totalNumbers := by
    rw [(sortedByFreq_perm frequencies).length_eq, hlen]
  unfold coldNumbersOf
  rw [if_neg (by omega), List.length_map, List.length_drop, hslen]
  omega

/-! ## Lemmas about the filter that excludes already-chosen numbers -/

theorem length_filter_ne (l : List ℚ) (a : ℚ) (hl : l.Nodup) (ha : a ∈ l) :
    (l.filter (fun x => ¬ x = a)).length = l.length - 1 := by
  induction l with
  | nil => cases ha
  | cons b t ih =>
    rcases List.nodup_cons.1 hl with ⟨hb, ht⟩
    rcases List.mem_cons.1 ha with hab | hat
    · rw [List.filter_cons, if_neg (by simp [hab])]
      have hkeep : t.filter (fun x => ¬ x = a) = t := by
        rw [List.filter_eq_self]
        intro x hx
        simp only [decide_eq_true_eq]
        intro he
        exact hb (hab ▸ he ▸ hx)
      rw [hkeep]
      simp
    · have hba : ¬ b = a := fun he => hb (he ▸ hat)
      rw [List.filter_cons, if_pos (by simp [hba])]
      have hpos := List.length_pos_of_mem hat
      rw [List.length_cons, ih ht hat, List.length_cons]
      omega

theorem length_filter_not_mem (s : List ℚ) :
    ∀ l : List ℚ, l.Nodup → s.Nodup → (∀ x ∈ s, x ∈ l) →
      ((l.filter (fun x => ¬ x ∈ s)).length) = l.length - s.length := by
  induction s with
  | nil =>
    intro l hl _ _
    have hkeep : l.filter (fun x => ¬ x ∈ ([] : List ℚ)) = l := by
      rw [List.filter_eq_self]
      intro x _
      simp
    rw [hkeep]
    simp
  | cons a t ih =>
    intro l hl hs hsub
    have hal : a ∈ l := hsub a (List.mem_cons_self a t)
    rcases List.nodup_cons.1 hs with ⟨hat, hts⟩
    have hsplit : l.filter (fun x => ¬ x ∈ (a :: t)) =
        (l.filter (fun x => ¬ x = a)).filter (fun x => ¬ x ∈ t) := by
      rw [List.filter_filter]
      apply List.filter_congr
      intro x _
      by_cases h1 : x = a
      · simp [h1]
      · by_cases h2 : x ∈ t
        · simp [h1, h2]
        · simp [h1, h2]
    have hnd1 : (l.filter (fun x => ¬ x = a)).Nodup := hl.filter _
    have hsub1 : ∀ x ∈ t, x ∈ l.filter (fun x => ¬ x = a) := by
      intro x hx
      rw [List.mem_filter]
      refine ⟨hsub x (List.mem_cons_of_mem _ hx), ?_⟩
      simp only [decide_eq_true_eq]
      intro he
      exact hat (he ▸ hx)
    rw [hsplit, ih _ hnd1 hts hsub1, length_filter_ne l a hl hal]
    have hpos := List.length_pos_of_mem hal
    rw [List.length_cons]
    omega

/-! ## The mixed suggestion -/

theorem uniqueMixed_facts (shuffle : List ℚ → List ℚ) (frequencies : List Frequency)
    (cfg : LotteryConfig) (hs : ∀ xs, (shuffle xs).Perm xs)
    (hcover : (frequencies.map (fun f => f.number)).Perm (rangeList cfg)) :
    (uniqueMixedOf shuffle frequencies cfg).Nodup ∧
    (∀ x ∈ uniqueMixedOf shuffle frequencies cfg, x ∈ rangeList cfg) := by
  refine ⟨jsDedup_nodup _, ?_⟩
  intro x hx
  have hx2 := (jsDedup_mem _ x).1 hx
  rcases List.mem_append.1 hx2 with h | h
  · exact (hotPool_facts frequencies cfg hcover).2.2 x (pick_subset shuffle hs _ _ x h)
  · exact coldPool_subset frequencies cfg hcover x (pick_subset shuffle hs _ _ x h)

theorem mixed_facts (shuffle : List ℚ → List ℚ) (frequencies : List Frequency)
    (cfg : LotteryConfig) (hs : ∀ xs, (shuffle xs).Perm xs)
    (hcover : (frequencies.map (fun f => f.number)).Perm (rangeList cfg))
    (hbet : cfg.betSize ≤ cfg.totalNumbers) :
    (mixedOf shuffle frequencies cfg).length = cfg.betSize ∧
    (mixedOf shuffle frequencies cfg).Nodup ∧
    (∀ x ∈ mixedOf shuffle frequencies cfg, x ∈ rangeList cfg) := by
  obtain ⟨hUnodup, hUsub⟩ := uniqueMixed_facts shuffle frequencies cfg hs hcover
  have hUlen : (uniqueMixedOf shuffle frequencies cfg).length ≤ cfg.totalNumbers := by
    have h := (hUnodup.subperm hUsub).length_le
    rw [rangeList_length] at h
    exact h
  have hfnodup : (frequencies.map (fun f => f.number)).Nodup :=
    hcover.symm.nodup (rangeList_nodup cfg)
  unfold mixedOf
  by_cases hlt : (uniqueMixedOf shuffle frequencies cfg).length < cfg.betSize
  · rw [if_pos hlt]
    have havail_len :
        ((frequencies.map (fun f => f.number)).filter
          (fun n => ¬ n ∈ uniqueMixedOf shuffle frequencies cfg)).length =
        cfg.totalNumbers - (uniqueMixedOf shuffle frequencies cfg).length := by
      have hpf := hcover.filter (fun n => ¬ n ∈ uniqueMixedOf shuffle frequencies cfg)
      rw [hpf.length_eq,
        length_filter_not_mem _ (rangeList cfg) (rangeList_nodup cfg) hUnodup hUsub,
        rangeList_length]
    have hfill_len :
        (pickRandomNumbers shuffle
          ((frequencies.map (fun f => f.number)).filter
            (fun n => ¬ n ∈ uniqueMixedOf shuffle frequencies cfg))
          (cfg.betSize - (uniqueMixedOf shuffle frequencies cfg).length)).length =
        cfg.betSize - (uniqueMixedOf shuffle frequencies cfg).length := by
      rw [pick_length shuffle hs, havail_len]
      omega
    have hfill_nodup :
        (pickRandomNumbers shuffle
          ((frequencies.map (fun f => f.number)).filter
            (fun n => ¬ n ∈ uniqueMixedOf shuffle frequencies cfg))
          (cfg.betSize - (uniqueMixedOf shuffle frequencies cfg).length)).Nodup :=
      pick_nodup shuffle hs _ _ (hfnodup.filter _)
    have hfill_excl : ∀ x ∈ pickRandomNumbers shuffle
        ((frequencies.map (fun f => f.number)).filter
          (fun n => ¬ n ∈ uniqueMixedOf shuffle frequencies cfg))
        (cfg.betSize - (uniqueMixedOf shuffle frequencies cfg).length),
        ¬ x ∈ uniqueMixedOf shuffle frequencies cfg := by
      intro x hx
      have hx2 := pick_subset shuffle hs _ _ x hx
      have := (List.mem_filter.1 hx2).2
      simpa using this
    refine ⟨?_, ?_, ?_⟩
    · rw [List.length_append, hfill_len]
      omega
    · refine List.Nodup.append hUnodup hfill_nodup ?_
      intro x hxU hxF
      exact hfill_excl x hxF hxU
    · intro x hx
      rcases List.mem_append.1 hx with h | h
      · exact hUsub x h
      · have hx2 := pick_subset shuffle hs _ _ x h
        have hx3 := (List.mem_filter.1 hx2).1
        exact hcover.mem_iff.1 hx3
  · rw [if_neg hlt]
    by_cases hgt : cfg.betSize < (uniqueMixedOf shuffle frequencies cfg).length
    · rw [if_pos hgt]
      refine ⟨?_, pick_nodup shuffle hs _ _ hUnodup, ?_⟩
      · rw [pick_length shuffle hs]
        omega
      · intro x hx
        exact hUsub x (pick_subset shuffle hs _ _ x hx)
    · rw [if_neg hgt]
      exact ⟨by omega, hUnodup, hUsub⟩

/-! ## Claim C9: the mixed suggestion always has exactly `betSize` numbers -/

/-- C9: for every frequency table covering `[1, totalNumbers]` and any
`hotCount, coldCount ≥ 1` (including values smaller than `betSize`), the mixed
suggestion has exactly `betSize` unique numbers in strictly ascending order,
whatever permutation the random shuffle produces (`betSize ≤ totalNumbers`,
without which `betSize` distinct in-range numbers cannot exist). -/
theorem c9_mixed_exact_betSize (shuffle : List ℚ → List ℚ) (frequencies : List Frequency)
    (cfg : LotteryConfig) (hs : ∀ xs, (shuffle xs).Perm xs)
    (hcover : (frequencies.map (fun f => f.number)).Perm (rangeList cfg))
    (hbet : cfg.betSize ≤ cfg.totalNumbers)
    (hh : 1 ≤ cfg.hotCount) (hc : 1 ≤ cfg.coldCount) :
    (regenerateSuggestions shuffle frequencies cfg).mixed.length = cfg.betSize ∧
    (regenerateSuggestions shuffle frequencies cfg).mixed.Pairwise (· < ·) := by
  obtain ⟨hlen, hnd, _⟩ := mixed_facts shuffle frequencies cfg hs hcover hbet
  have hmx : (regenerateSuggestions shuffle frequencies cfg).mixed =
      (mixedOf shuffle frequencies cfg).insertionSort (· ≤ ·) := rfl
  constructor
  · rw [hmx, (List.perm_insertionSort _ _).length_eq, hlen]
  · rw [hmx]
    have hsorted : List.Sorted (· ≤ ·) ((mixedOf shuffle frequencies cfg).insertionSort (· ≤ ·)) :=
      List.sorted_insertionSort _ _
    have hnd2 : ((mixedOf shuffle frequencies cfg).insertionSort (· ≤ ·)).Nodup :=
      (List.perm_insertionSort _ _).symm.nodup hnd
    exact (List.Pairwise.and hsorted hnd2).imp (fun h => lt_of_le_of_ne h.1 h.2)

/-- Witness for C9 with `hotCount = coldCount = 1 < betSize = 6`, exercising
the top-up path. -/
theorem c9_witness :
    (regenerateSuggestions (fun xs => xs) c9Freqs c9Cfg).mixed.length = c9Cfg.betSize ∧
    (regenerateSuggestions (fun xs => xs) c9Freqs c9Cfg).mixed.Pairwise (· < ·) :=
  c9_mixed_exact_betSize (fun xs => xs) c9Freqs c9Cfg (fun xs => List.Perm.refl xs)
    (by decide) (by decide) (by decide) (by decide)

/-! ## Claim C3: sizes of the three suggestion lists -/

/-- C3 counterexample: with `betSize = 6` and `hotCount = 5`, the hot
suggestion holds only 5 numbers (the hot pool has just `hotCount` elements),
refuting "each of the three lists has exactly `betSize` elements". -/
theorem c3_counterexample :
    ((regenerateSuggestions (fun xs => xs) c3Freqs c3Cfg).hot).length = 5 ∧
    c3Cfg.betSize = 6 := by
  exact ⟨by decide, by decide⟩

/-- C3 amended: each list is a strictly increasing sequence of unique numbers
from the profile's range; `mixed` always has exactly `betSize` elements, but
`hot` and `cold` have `min betSize (min hotCount totalNumbers)` and
`min betSize (min coldCount totalNumbers)` elements respectively — only
`betSize` when the pools are large enough. -/
theorem c3_suggestion_shapes (shuffle : List ℚ → List ℚ) (frequencies : List Frequency)
    (cfg : LotteryConfig) (hs : ∀ xs, (shuffle xs).Perm xs)
    (hcover : (frequencies.map (fun f => f.number)).Perm (rangeList cfg))
    (hbet : cfg.betSize ≤ cfg.totalNumbers) (hc : 1 ≤ cfg.coldCount) :
    (regenerateSuggestions shuffle frequencies cfg).hot.length =
      min cfg.betSize (min cfg.hotCount cfg.totalNumbers) ∧
    (regenerateSuggestions shuffle frequencies cfg).cold.length =
      min cfg.betSize (min cfg.coldCount cfg.totalNumbers) ∧
    (regenerateSuggestions shuffle frequencies cfg).mixed.length = cfg.betSize ∧
    (regenerateSuggestions shuffle frequencies cfg).hot.Pairwise (· < ·) ∧
    (regenerateSuggestions shuffle frequencies cfg).cold.Pairwise (· < ·) ∧
    (regenerateSuggestions shuffle frequencies cfg).mixed.Pairwise (· < ·) ∧
    (∀ x ∈ (regenerateSuggestions shuffle frequencies cfg).hot, x ∈ rangeList cfg) ∧
    (∀ x ∈ (regenerateSuggestions shuffle frequencies cfg).cold, x ∈ rangeList cfg) ∧
    (∀ x ∈ (regenerateSuggestions shuffle frequencies cfg).mixed, x ∈ rangeList cfg) := by
  obtain ⟨hhlen, hhnodup, hhsub⟩ := hotPool_facts frequencies cfg hcover
  have hclen := coldPool_length frequencies cfg hcover hc
  have hcnodup := coldPool_nodup frequencies cfg hcover
  have hcsub := coldPool_subset frequencies cfg hcover
  obtain ⟨hmlen, hmnodup, hmsub⟩ := mixed_facts shuffle frequencies cfg hs hcover hbet
  have hhot : (regenerateSuggestions shuffle frequencies cfg).hot =
      pickRandomNumbers shuffle (hotNumbersOf frequencies cfg) cfg.betSize := rfl
  have hcold : (regenerateSuggestions shuffle frequencies cfg).cold =
      pickRandomNumbers shuffle (coldNumbersOf frequencies cfg) cfg.betSize := rfl
  have hmx : (regenerateSuggestions shuffle frequencies cfg).mixed =
      (mixedOf shuffle frequencies cfg).insertionSort (· ≤ ·) := rfl
  refine ⟨?_, ?_, ?_, ?_, ?_, ?_, ?_, ?_, ?_⟩
  · rw [hhot, pick_length shuffle hs, hhlen]
  · rw [hcold, pick_length shuffle hs, hclen]
  · rw [hmx, (List.perm_insertionSort _ _).length_eq, hmlen]
  · rw [hhot]
    exact pick_pairwise_lt shuffle hs _ _ hhnodup
  · rw [hcold]
    exact pick_pairwise_lt shuffle hs _ _ hcnodup
  · rw [hmx]
    have hsorted : List.Sorted (· ≤ ·) ((mixedOf shuffle frequencies cfg).insertionSort (· ≤ ·)) :=
      List.sorted_insertionSort _ _
    have hnd2 : ((mixedOf shuffle frequencies cfg).insertionSort (· ≤ ·)).Nodup :=
      (List.perm_insertionSort _ _).symm.nodup hmnodup
    exact (List.Pairwise.and hsorted hnd2).imp (fun h => lt_of_le_of_ne h.1 h.2)
  · intro x hx
    rw [hhot] at hx
    exact hhsub x (pick_subset shuffle hs _ _ x hx)
  · intro x hx
    rw [hcold] at hx
    exact hcsub x (pick_subset shuffle hs _ _ x hx)
  · intro x hx
    rw [hmx] at hx
    exact hmsub x ((List.perm_insertionSort _ _).mem_iff.1 hx)

/-- Witness for C3's amended statement at `c3Cfg` (`hotCount = 5 < betSize = 6`):
the hot list has `min 6 (min 5 10) = 5` elements, the mixed list exactly 6. -/
theorem c3_witness :
    (regenerateSuggestions (fun xs => xs) c3Freqs c3Cfg).hot.length =
      min c3Cfg.betSize (min c3Cfg.hotCount c3Cfg.totalNumbers) ∧
    (regenerateSuggestions (fun xs => xs) c3Freqs c3Cfg).mixed.length = c3Cfg.betSize ∧
    (regenerateSuggestions (fun xs => xs) c3Freqs c3Cfg).mixed.Pairwise (· < ·) := by
  have h := c3_suggestion_shapes (fun xs => xs) c3Freqs c3Cfg (fun xs => List.Perm.refl xs)
    (by decide) (by decide) (by decide)
  exact ⟨h.1, h.2.2.1, h.2.2.2.2.2.1⟩

end Lottery
